import Mathlib

/-!
Verification development for the Q_gramps plugin collection
(descendant/ancestor LaTeX reports, custom narrator, LaTeX helpers,
and the descendant-family filter rule).

The genealogical database of the host application is modelled as finite
association lists from handles (naturals) to person / family / event
records.  Python dictionaries become association lists with first-match
lookup, Python sets become duplicate-free lists, Python exceptions become
`Except`.  Each embedded function mirrors one function of the repository,
keeping its name where Lean allows it.
-/

/-- A surname entry of a primary name (`gen.lib.Surname`); only the field
the plugins read is modelled. -/
structure Surname where
  surname : String
deriving DecidableEq, Repr

/-- The primary name of a person (`gen.lib.Name`); only the fields read by
`latex_helper.get_latex_id` and `get_nachname` are modelled. -/
structure PrimaryName where
  first_name : String
  suffix : String
  surname_list : List Surname
deriving DecidableEq, Repr

/-- A person record (`gen.lib.Person`) as read by the plugins: its handle,
Gramps ID, primary name, the families it is a spouse/parent in
(`get_family_handle_list`), the main parents family
(`get_main_parents_family_handle`), and the birth/death event references. -/
structure GPerson where
  handle : Nat
  gramps_id : String
  primary_name : PrimaryName
  family_handle_list : List Nat
  main_parents_family : Option Nat
  birth_ref : Option Nat
  death_ref : Option Nat
deriving DecidableEq, Repr

/-- A family record (`gen.lib.Family`): father handle, mother handle and
the child references (`get_child_ref_list`, each child modelled by its
`ref` handle). -/
structure GFamily where
  father_handle : Option Nat
  mother_handle : Option Nat
  child_ref_list : List Nat
deriving DecidableEq, Repr

/-- A Gramps date object as the narrator reads it: the string the locale
renderer returns for it, its year, and the `get_day_valid`,
`get_year_valid` and `get_modifier` flags (`modifier_ne_none` is
`get_modifier() != Date.MOD_NONE`). -/
structure GDate where
  rendered : String
  year : Int
  day_valid : Bool
  year_valid : Bool
  modifier_ne_none : Bool
deriving DecidableEq, Repr

/-- An event record (`gen.lib.Event`) as the narrator reads it: its date
object and its place handle. -/
structure GEvent where
  date : GDate
  place_handle : Option Nat
deriving DecidableEq, Repr

/-- The slice of the host database the plugins read.  `persons`,
`families`, `events` are handle-indexed association lists;
`gramps_index` maps a Gramps ID to a person handle
(`get_person_from_gramps_id`); `event_place_str` is the rendered place
display of an event (`place displayer.display_event`, host API);
`date_span` is the host's date subtraction: `some s` when
`death - birth` is a truthy, valid span with representation `s`
(`Date.__sub__` / `Span.get_repr`, host API). -/
structure GDb where
  persons : List (Nat × GPerson)
  families : List (Nat × GFamily)
  events : List (Nat × GEvent)
  gramps_index : List (String × Nat)
  event_place_str : List (Nat × String)
  date_span : GDate → GDate → Option String

/-- Default person returned for unknown handles (the claims only concern
well-formed databases; an unknown handle behaves as an empty record). -/
def emptyPerson : GPerson :=
  ⟨0, "", ⟨"", "", []⟩, [], none, none, none⟩

/-- Default family for unknown handles. -/
def emptyFamily : GFamily := ⟨none, none, []⟩

/-- `db.get_person_from_handle h` on a well-formed database. -/
def getPerson (db : GDb) (h : Nat) : GPerson :=
  (List.lookup h db.persons).getD emptyPerson

/-- `db.get_family_from_handle h` on a well-formed database. -/
def getFamily (db : GDb) (h : Nat) : GFamily :=
  (List.lookup h db.families).getD emptyFamily

/-- `db.get_person_from_gramps_id pid`, returning the handle. -/
def personFromGrampsId (db : GDb) (pid : String) : Option Nat :=
  List.lookup pid db.gramps_index

/-- Python dictionary assignment `m[k] = v` on an association list:
update the binding in place when the key is present, append otherwise. -/
def dictSet {α β : Type} [DecidableEq α] :
    List (α × β) → α → β → List (α × β)
  | [], k, v => [(k, v)]
  | (k0, v0) :: rest, k, v =>
      if k0 = k then (k0, v) :: rest else (k0, v0) :: dictSet rest k v

theorem lookup_dictSet {α β : Type} [DecidableEq α]
    (m : List (α × β)) (k k' : α) (v : β) :
    List.lookup k' (dictSet m k v) =
      if k' = k then some v else List.lookup k' m := by
  induction m with
  | nil =>
      by_cases h : k' = k
      · subst h; simp [dictSet, List.lookup]
      · have hb : (k' == k) = false := beq_eq_false_iff_ne.mpr h
        simp [dictSet, List.lookup, hb, h]
  | cons p rest ih =>
      obtain ⟨k0, v0⟩ := p
      by_cases h0 : k0 = k
      · subst h0
        by_cases h : k' = k0
        · subst h; simp [dictSet, List.lookup]
        · have hb : (k' == k0) = false := beq_eq_false_iff_ne.mpr h
          simp [dictSet, List.lookup, hb, h]
      · by_cases h : k' = k0
        · subst h
          simp [dictSet, h0, List.lookup]
        · have hb : (k' == k0) = false := beq_eq_false_iff_ne.mpr h
          simp [dictSet, h0, List.lookup, hb, ih]

/-- All children of a person, in the order the reports traverse them:
for each family of the person in order, its child references in order
(this is the enumeration the per-call `index` counter walks through). -/
def childrenAcrossFamilies (db : GDb) (h : Nat) : List Nat :=
  ((getPerson db h).family_handle_list.map
    (fun fh => (getFamily db fh).child_ref_list)).flatten

/- ----------------------------------------------------------------- -/
/- latex_helper.escape (claim C8)                                    -/
/- ----------------------------------------------------------------- -/

/-- The ten LaTeX special characters of `latex_helper.escape`'s lookup
table, in source order. -/
def latexSpecials : List Char :=
  ['&', '%', '$', '#', '_', '\x7b', '\x7d', '~', '^', '\\']

/-- The replacement the `escape` lookup table assigns to one character;
characters outside the table are returned unchanged. -/
def escapeRepl (c : Char) : List Char :=
  if c = '&' then ['\\', '&']
  else if c = '%' then ['\\', '%']
  else if c = '$' then ['\\', '$']
  else if c = '#' then ['\\', '#']
  else if c = '_' then ['\\', '_']
  else if c = '\x7b' then ['\\', '\x7b']
  else if c = '\x7d' then ['\\', '\x7d']
  else if c = '~' then ['\\', '~', '\x7b', '\x7d']
  else if c = '^' then ['\\', '^', '\x7b', '\x7d']
  else if c = '\\' then "\\textbackslash\x7b\x7d".data
  else [c]

/-- `latex_helper.escape` on the character list of the input: the
compiled pattern is an alternation of the ten single-character keys, and
`pattern.sub` scans the text left to right replacing each match by its
lookup entry, leaving every other character in place. -/
def escapeChars : List Char → List Char
  | [] => []
  | c :: rest => escapeRepl c ++ escapeChars rest

/-- `latex_helper.escape`. -/
def escape (text : String) : String :=
  ⟨escapeChars text.data⟩

/- ----------------------------------------------------------------- -/
/- latex_helper.get_latex_id / get_nachname (claim C9)               -/
/- ----------------------------------------------------------------- -/

/-- Python `str.replace(old, new)` for a single-character `old`: every
occurrence of the character is replaced by `new`. -/
def strReplaceChar (s : List Char) (old : Char) (new : List Char) :
    List Char :=
  (s.map (fun c => if c = old then new else [c])).flatten

/-- `latex_helper.get_nachname`: the surname of the first entry of the
primary name's surname list, or `""` when the list is empty. -/
def get_nachname (person : GPerson) : String :=
  match person.primary_name.surname_list with
  | [] => ""
  | sn :: _ => sn.surname

/-- The `umlaute` transliteration table of `get_latex_id`, in source
(dict insertion) order. -/
def umlautTable : List (Char × List Char) :=
  [('ö', ['o', 'e']), ('ä', ['a', 'e']), ('ü', ['u', 'e']),
   ('Ä', ['A', 'E']), ('Ö', ['O', 'E']), ('Ü', ['U', 'E']),
   ('ß', ['s', 's']), ('æ', ['a', 'e'])]

/-- The eight sequential `str.replace` calls of `get_latex_id`'s
`for char in umlaute` loop, in table (dict insertion) order. -/
def applyUmlautTable (l : List Char) : List Char :=
  umlautTable.foldl (fun s cr => strReplaceChar s cr.1 cr.2) l

/-- `latex_helper.get_latex_id`: concatenate first surname, given name,
suffix and Gramps ID, remove spaces, then apply the eight
single-character `str.replace` transliterations in table order. -/
def get_latex_id (person : GPerson) : String :=
  let person_id :=
    (get_nachname person) ++ person.primary_name.first_name ++
      person.primary_name.suffix ++ person.gramps_id
  let noSpaces := strReplaceChar person_id.data ' ' []
  ⟨applyUmlautTable noSpaces⟩

/- ----------------------------------------------------------------- -/
/- latex_down.py: descendant numbering filters (claims C1, C4, C5)   -/
/- ----------------------------------------------------------------- -/

/-- The `HENRY` alphabet constant of `latex_down.py`. -/
def HENRY : String := "123456789ABCDEFGHIJKLMNOPQRSTUVWXYZ"

/-- `HENRY[i]` (the claims are restricted to databases where every person
has at most 35 children, so the index stays in range; out-of-range
indices, where Python would raise `IndexError`, return a placeholder). -/
def henryChar (i : Nat) : Char := HENRY.data.getD i '?'

/-- The `mhenry()` convenience function of `apply_mhenry_filter`:
`str(index)` for an index below 10, the index in parentheses otherwise. -/
def mhenry (index : Nat) : String :=
  if index < 10 then toString index else "(" ++ toString index ++ ")"

/-- The mutable state of `LatexDownReport` touched by the numbering
filters: `self.dnumber`, `self.map` and `self.gen_keys`. -/
structure DownState where
  dnumber : List (Nat × String)
  map : List (Nat × Nat)
  gen_keys : List (List Nat)

/-- `max(self.map)`: the largest key of the map (the map is nonempty at
every call site). -/
def mapMaxKey (m : List (Nat × Nat)) : Nat :=
  (m.map Prod.fst).foldr max 0

/-- The `self.gen_keys` update both filters perform: append a new
singleton generation when `len(gen_keys) < cur_gen`, otherwise append the
index to generation `cur_gen - 1`. -/
def genKeysAdd (gk : List (List Nat)) (curGen index : Nat) :
    List (List Nat) :=
  if gk.length < curGen then gk ++ [[index]]
  else gk.set (curGen - 1) ((gk.getD (curGen - 1) []) ++ [index])

/-- The `self.dnumber` update of `apply_henry_filter`: keep the smaller
(in Python string order) of the stored and the candidate number, insert
when absent. -/
def henryDnumberUpdate (d : List (Nat × String)) (h : Nat) (pid : String) :
    List (Nat × String) :=
  match List.lookup h d with
  | some old => if old > pid then dictSet d h pid else d
  | none => dictSet d h pid

/-- `LatexDownReport.apply_henry_filter`, by recursion on remaining
generations (`fuel`).  The guard `cur_gen > max_generations` returns
before the fuel can run out when the function is entered with
`fuel + cur_gen = max_generations + 2`, which `apply_henry_filter`
establishes. -/
def apply_henry_filter_aux (db : GDb) (maxGen : Nat) :
    Nat → Option Nat → Nat → String → Nat → DownState → DownState
  | 0, _, _, _, _, st => st
  | _ + 1, none, _, _, _, st => st
  | fuel + 1, some handle, index, pid, curGen, st =>
      if curGen > maxGen then st
      else
        let st1 : DownState :=
          { dnumber := henryDnumberUpdate st.dnumber handle pid
            map := dictSet st.map index handle
            gen_keys := genKeysAdd st.gen_keys curGen index }
        (childrenAcrossFamilies db handle).enum.foldl
          (fun acc ic =>
            apply_henry_filter_aux db maxGen fuel (some ic.2)
              (mapMaxKey acc.map + 1) (pid.push (henryChar ic.1))
              (curGen + 1) acc)
          st1

/-- `apply_henry_filter(person_handle, index, pid)` with default
`cur_gen=1`, as `write_report` calls it. -/
def apply_henry_filter (db : GDb) (maxGen : Nat) (handle : Nat)
    (index : Nat) (pid : String) : DownState :=
  apply_henry_filter_aux db maxGen (maxGen + 1) (some handle) index pid 1
    ⟨[], [], []⟩

/-- `LatexDownReport.apply_mhenry_filter`.  Its body numbers the direct
children with `pid + mhenry()` (a 1-based position counter) but recurses
through `apply_henry_filter`, not through itself. -/
def apply_mhenry_filter (db : GDb) (maxGen : Nat) (handle : Nat)
    (index : Nat) (pid : String) : DownState :=
  let curGen := 1
  let st : DownState := ⟨[], [], []⟩
  if curGen > maxGen then st
  else
    let st1 : DownState :=
      { dnumber := dictSet st.dnumber handle pid
        map := dictSet st.map index handle
        gen_keys := genKeysAdd st.gen_keys curGen index }
    (childrenAcrossFamilies db handle).enum.foldl
      (fun acc ic =>
        apply_henry_filter_aux db maxGen (maxGen + 1) (some ic.2)
          (mapMaxKey acc.map + 1) (pid ++ mhenry (ic.1 + 1))
          (curGen + 1) acc)
      st1

/-- The `self.dnumber` update of `apply_daboville_filter`: unconditional
assignment. -/
def dabovilleDnumberUpdate (d : List (Nat × String)) (h : Nat)
    (pid : String) : List (Nat × String) :=
  dictSet d h pid

/-- `LatexDownReport.apply_daboville_filter`, by recursion on remaining
generations, same fuel discipline as the Henry filter. -/
def apply_daboville_filter_aux (db : GDb) (maxGen : Nat) :
    Nat → Option Nat → Nat → String → Nat → DownState → DownState
  | 0, _, _, _, _, st => st
  | _ + 1, none, _, _, _, st => st
  | fuel + 1, some handle, index, pid, curGen, st =>
      if curGen > maxGen then st
      else
        let st1 : DownState :=
          { dnumber := dabovilleDnumberUpdate st.dnumber handle pid
            map := dictSet st.map index handle
            gen_keys := genKeysAdd st.gen_keys curGen index }
        (childrenAcrossFamilies db handle).enum.foldl
          (fun acc ic =>
            apply_daboville_filter_aux db maxGen fuel (some ic.2)
              (mapMaxKey acc.map + 1)
              (pid ++ "." ++ toString (ic.1 + 1)) (curGen + 1) acc)
          st1

/-- `apply_daboville_filter(person_handle, index, pid)` with default
`cur_gen=1`. -/
def apply_daboville_filter (db : GDb) (maxGen : Nat) (handle : Nat)
    (index : Nat) (pid : String) : DownState :=
  apply_daboville_filter_aux db maxGen (maxGen + 1) (some handle) index pid
    1 ⟨[], [], []⟩

/-- The numbering dispatch of `LatexDownReport.write_report`:
the configured scheme name selects the filter that is run on the center
person with arguments `(handle, 1, "1")`; an unknown scheme raises
(`none`; the Record / Modified Register scheme, which no claim covers,
is not modelled). -/
def write_report_numbering (db : GDb) (maxGen : Nat) (center : Nat) :
    String → Option DownState
  | "Henry" => some (apply_henry_filter db maxGen center 1 "1")
  | "Modified Henry" => some (apply_mhenry_filter db maxGen center 1 "1")
  | "d'Aboville" => some (apply_daboville_filter db maxGen center 1 "1")
  | _ => none

/- ----------------------------------------------------------------- -/
/- Characterizing the descendant numbering traversals                -/
/- ----------------------------------------------------------------- -/

/-- The numbers a traversal proposes for person `h`: the second
components of the pairs naming `h`. -/
def valuesFor (h : Nat) (l : List (Nat × String)) : List String :=
  l.filterMap (fun p => if p.1 = h then some p.2 else none)

theorem valuesFor_append (h : Nat) (l1 l2 : List (Nat × String)) :
    valuesFor h (l1 ++ l2) = valuesFor h l1 ++ valuesFor h l2 := by
  simp [valuesFor]

/-- Merge an optional stored number with an optional candidate, keeping
the smaller (Python string order); mirrors the Henry min-update. -/
def optMinStr : Option String → Option String → Option String
  | none, b => b
  | some a, none => some a
  | some a, some b => some (min a b)

theorem optMinStr_none_right (a : Option String) : optMinStr a none = a := by
  cases a <;> rfl

theorem optMinStr_assoc (a b c : Option String) :
    optMinStr (optMinStr a b) c = optMinStr a (optMinStr b c) := by
  cases a <;> cases b <;> cases c <;> simp [optMinStr, min_assoc]

/-- The smallest string of a list (none for the empty list). -/
def minStr? : List String → Option String
  | [] => none
  | s :: rest => optMinStr (some s) (minStr? rest)

theorem minStr?_append (l1 l2 : List String) :
    minStr? (l1 ++ l2) = optMinStr (minStr? l1) (minStr? l2) := by
  induction l1 with
  | nil => rfl
  | cons s l1 ih => simp [minStr?, ih, optMinStr_assoc]

theorem lookup_henryDnumberUpdate (d : List (Nat × String)) (handle : Nat)
    (pid : String) (h : Nat) :
    List.lookup h (henryDnumberUpdate d handle pid)
      = optMinStr (List.lookup h d)
          (minStr? (valuesFor h [(handle, pid)])) := by
  by_cases hh : handle = h
  · subst hh
    simp only [valuesFor, List.filterMap, if_pos rfl, minStr?]
    unfold henryDnumberUpdate
    cases hl : List.lookup handle d with
    | none => simp [lookup_dictSet, hl, optMinStr]
    | some old =>
        dsimp only
        by_cases hcmp : old > pid
        · rw [if_pos hcmp]
          simp [lookup_dictSet, hl, optMinStr,
            min_eq_right (le_of_lt hcmp)]
        · rw [if_neg hcmp]
          simp [hl, optMinStr, min_eq_left (not_lt.mp hcmp)]
  · have hh2 : ¬h = handle := fun e => hh e.symm
    have hval : valuesFor h [(handle, pid)] = [] := by
      simp [valuesFor, hh]
    rw [hval]
    simp only [minStr?, optMinStr_none_right]
    unfold henryDnumberUpdate
    cases hl : List.lookup handle d with
    | none => simp [lookup_dictSet, hh2, hl]
    | some old =>
        dsimp only
        by_cases hcmp : old > pid
        · rw [if_pos hcmp]; simp [lookup_dictSet, hh2]
        · rw [if_neg hcmp]

/-- The (person, candidate number) pairs `apply_henry_filter` proposes:
the person itself with the incoming number, then, for each child at
0-based position `i` across all families, the candidates of the subtree
entered with the number `pid + HENRY[i]`; nothing beyond the generation
limit. -/
def henryCands (db : GDb) (maxGen : Nat) :
    Nat → Option Nat → String → Nat → List (Nat × String)
  | 0, _, _, _ => []
  | _ + 1, none, _, _ => []
  | fuel + 1, some handle, pid, curGen =>
      if curGen > maxGen then []
      else
        (handle, pid) ::
          (childrenAcrossFamilies db handle).enum.flatMap
            (fun ic =>
              henryCands db maxGen fuel (some ic.2)
                (pid.push (henryChar ic.1)) (curGen + 1))

theorem henry_fold_lookup (db : GDb) (maxGen fuel : Nat)
    (ih : ∀ (hop : Option Nat) (index : Nat) (pid : String) (curGen : Nat)
        (st : DownState) (h : Nat),
      List.lookup h
          (apply_henry_filter_aux db maxGen fuel hop index pid curGen
            st).dnumber
        = optMinStr (List.lookup h st.dnumber)
            (minStr? (valuesFor h (henryCands db maxGen fuel hop pid
              curGen)))) :
    ∀ (L : List (Nat × Nat)) (pid : String) (curGen : Nat)
      (st : DownState) (h : Nat),
    List.lookup h
        ((L.foldl
          (fun acc ic =>
            apply_henry_filter_aux db maxGen fuel (some ic.2)
              (mapMaxKey acc.map + 1) (pid.push (henryChar ic.1))
              (curGen + 1) acc) st)).dnumber
      = optMinStr (List.lookup h st.dnumber)
          (minStr? (valuesFor h
            (L.flatMap (fun ic =>
              henryCands db maxGen fuel (some ic.2)
                (pid.push (henryChar ic.1)) (curGen + 1))))) := by
  intro L
  induction L with
  | nil => intro pid curGen st h; simp [minStr?, valuesFor,
      optMinStr_none_right]
  | cons ic L ihL =>
      intro pid curGen st h
      simp only [List.foldl_cons, List.flatMap_cons]
      rw [ihL, ih, valuesFor_append, minStr?_append, optMinStr_assoc]

theorem henry_aux_lookup (db : GDb) (maxGen : Nat) :
    ∀ (fuel : Nat) (hop : Option Nat) (index : Nat) (pid : String)
      (curGen : Nat) (st : DownState) (h : Nat),
    List.lookup h
        (apply_henry_filter_aux db maxGen fuel hop index pid curGen
          st).dnumber
      = optMinStr (List.lookup h st.dnumber)
          (minStr? (valuesFor h
            (henryCands db maxGen fuel hop pid curGen))) := by
  intro fuel
  induction fuel with
  | zero =>
      intro hop index pid curGen st h
      simp [apply_henry_filter_aux, henryCands, valuesFor, minStr?,
        optMinStr_none_right]
  | succ fuel ih =>
      intro hop index pid curGen st h
      cases hop with
      | none =>
          simp [apply_henry_filter_aux, henryCands, valuesFor, minStr?,
            optMinStr_none_right]
      | some handle =>
          by_cases hg : curGen > maxGen
          · simp [apply_henry_filter_aux, henryCands, hg, valuesFor,
              minStr?, optMinStr_none_right]
          · simp only [apply_henry_filter_aux, henryCands, if_neg hg]
            rw [henry_fold_lookup db maxGen fuel ih]
            have hsingle :
                valuesFor h ([(handle, pid)]) ++
                    valuesFor h
                      ((childrenAcrossFamilies db handle).enum.flatMap
                        (fun ic =>
                          henryCands db maxGen fuel (some ic.2)
                            (pid.push (henryChar ic.1)) (curGen + 1)))
                  = valuesFor h ((handle, pid) ::
                      (childrenAcrossFamilies db handle).enum.flatMap
                        (fun ic =>
                          henryCands db maxGen fuel (some ic.2)
                            (pid.push (henryChar ic.1)) (curGen + 1))) := by
              rw [← valuesFor_append]; rfl
            rw [← hsingle, minStr?_append, ← optMinStr_assoc]
            congr 1
            exact lookup_henryDnumberUpdate st.dnumber handle pid h

theorem not_append_lt_self (l t : List Char) : ¬(l ++ t < l) := by
  induction l with
  | nil =>
      intro h
      replace h : List.Lex (· < ·) t [] := h
      exact List.Lex.not_nil_right _ _ h
  | cons a l ih =>
      intro h
      replace h : List.Lex (· < ·) (a :: (l ++ t)) (a :: l) := h
      cases h with
      | cons h3 => exact ih h3
      | rel hlt => exact absurd hlt (lt_irrefl a)

theorem str_le_of_data_extend (p s : String) (t : List Char)
    (hs : s.data = p.data ++ t) : p ≤ s := by
  rw [String.le_iff_toList_le]
  have he : s.toList = p.toList ++ t := hs
  rw [he]
  cases t with
  | nil => simp
  | cons c t2 =>
      have hlt : p.toList ++ ([] : List Char) < p.toList ++ (c :: t2) :=
        List.Lex.append_left _ List.Lex.nil p.toList
      rw [List.append_nil] at hlt
      exact le_of_lt hlt

theorem minStr?_eq_none (l : List String) (h : minStr? l = none) :
    l = [] := by
  cases l with
  | nil => rfl
  | cons s rest =>
      exfalso
      simp only [minStr?] at h
      cases hr : minStr? rest <;> rw [hr] at h <;> simp [optMinStr] at h

theorem minStr?_mem : ∀ (l : List String) (m : String),
    minStr? l = some m → m ∈ l := by
  intro l
  induction l with
  | nil => intro m h; simp [minStr?] at h
  | cons s rest ih =>
      intro m h
      simp only [minStr?] at h
      cases hr : minStr? rest with
      | none =>
          rw [hr] at h
          simp [optMinStr] at h
          simp [h]
      | some t =>
          rw [hr] at h
          simp only [optMinStr, Option.some.injEq] at h
          rcases min_choice s t with hc | hc
          · rw [hc] at h; simp [h]
          · rw [hc] at h
            exact List.mem_cons_of_mem s (h ▸ ih t hr)

theorem minStr?_le : ∀ (l : List String) (m x : String),
    minStr? l = some m → x ∈ l → m ≤ x := by
  intro l
  induction l with
  | nil => intro m x h hx; simp at hx
  | cons s rest ih =>
      intro m x h hx
      simp only [minStr?] at h
      cases hr : minStr? rest with
      | none =>
          have : rest = [] := minStr?_eq_none rest hr
          subst this
          rw [hr] at h
          simp [optMinStr] at h
          rcases List.mem_cons.mp hx with hxs | hxs
          · rw [hxs, ← h]
          · simp at hxs
      | some t =>
          rw [hr] at h
          simp only [optMinStr, Option.some.injEq] at h
          rcases List.mem_cons.mp hx with hxs | hxs
          · rw [hxs, ← h]; exact min_le_left s t
          · calc m = min s t := h.symm
              _ ≤ t := min_le_right s t
              _ ≤ x := ih t x hr hxs

theorem henryCands_extend_pid (db : GDb) (maxGen : Nat) :
    ∀ (fuel : Nat) (hop : Option Nat) (pid : String) (curGen : Nat)
      (p : Nat × String), p ∈ henryCands db maxGen fuel hop pid curGen →
      ∃ t, p.2.data = pid.data ++ t := by
  intro fuel
  induction fuel with
  | zero => intro hop pid curGen p hp; simp [henryCands] at hp
  | succ fuel ih =>
      intro hop pid curGen p hp
      cases hop with
      | none => simp [henryCands] at hp
      | some handle =>
          by_cases hg : curGen > maxGen
          · simp [henryCands, hg] at hp
          · simp only [henryCands, if_neg hg, List.mem_cons] at hp
            rcases hp with hp | hp
            · exact ⟨[], by rw [hp]; simp⟩
            · rw [List.mem_flatMap] at hp
              obtain ⟨ic, _, hmem⟩ := hp
              obtain ⟨t, ht⟩ := ih (some ic.2)
                (pid.push (henryChar ic.1)) (curGen + 1) p hmem
              refine ⟨henryChar ic.1 :: t, ?_⟩
              rw [ht]
              show (pid.push (henryChar ic.1)).data ++ t = _
              simp [String.data, List.append_assoc]

/-- C1: in the descendant report with the Henry scheme, the numbering is
deterministic and characterized as follows: on a database where every
person has at most 35 children (so that indexing into the `HENRY`
alphabet is defined), running `apply_henry_filter(center, 1, "1")` as
`write_report` does assigns to each person handle exactly the minimum
(in Python string order) of its candidate numbers, where the candidate
numbers are generated by giving the center person `"1"` and each child
encountered at 0-based position `i` (counted across all of its parent's
families) its parent's candidate followed by `HENRY[i]`, cutting the
traversal beyond `max_generations`; persons with no candidate (only
reachable deeper than `max_generations`, or not at all) get no number,
a person reachable along several descent paths (cousin marriage) keeps
the smallest candidate, and the center person receives `"1"`. -/
theorem henry_numbering_characterized (db : GDb) (maxGen center : Nat)
    (hg : 1 ≤ maxGen)
    (hch : ∀ p ∈ db.persons,
      (childrenAcrossFamilies db p.1).length ≤ 35) :
    write_report_numbering db maxGen center "Henry"
        = some (apply_henry_filter db maxGen center 1 "1") ∧
    (∀ h : Nat,
      List.lookup h (apply_henry_filter db maxGen center 1 "1").dnumber
        = minStr? (valuesFor h
            (henryCands db maxGen (maxGen + 1) (some center) "1" 1))) ∧
    List.lookup center
        (apply_henry_filter db maxGen center 1 "1").dnumber
      = some "1" := by
  have hchar : ∀ h : Nat,
      List.lookup h (apply_henry_filter db maxGen center 1 "1").dnumber
        = minStr? (valuesFor h
            (henryCands db maxGen (maxGen + 1) (some center) "1" 1)) := by
    intro h
    unfold apply_henry_filter
    rw [henry_aux_lookup]
    rfl
  refine ⟨rfl, hchar, ?_⟩
  rw [hchar center]
  have hg1 : ¬(1 > maxGen) := by omega
  have hcons : henryCands db maxGen (maxGen + 1) (some center) "1" 1
      = (center, "1") ::
        (childrenAcrossFamilies db center).enum.flatMap
          (fun ic =>
            henryCands db maxGen maxGen (some ic.2)
              (("1" : String).push (henryChar ic.1)) 2) := by
    show henryCands db maxGen (maxGen + 1) (some center) "1" 1 = _
    rw [henryCands, if_neg hg1]
  rw [hcons]
  have hVcons : valuesFor center ((center, "1") ::
      (childrenAcrossFamilies db center).enum.flatMap
        (fun ic =>
          henryCands db maxGen maxGen (some ic.2)
            (("1" : String).push (henryChar ic.1)) 2))
      = "1" :: valuesFor center
          ((childrenAcrossFamilies db center).enum.flatMap
            (fun ic =>
              henryCands db maxGen maxGen (some ic.2)
                (("1" : String).push (henryChar ic.1)) 2)) := by
    simp [valuesFor]
  rw [hVcons]
  obtain ⟨m, hm⟩ : ∃ m, minStr? ("1" :: valuesFor center
      ((childrenAcrossFamilies db center).enum.flatMap
        (fun ic =>
          henryCands db maxGen maxGen (some ic.2)
            (("1" : String).push (henryChar ic.1)) 2))) = some m := by
    cases hr : minStr? (valuesFor center
        ((childrenAcrossFamilies db center).enum.flatMap
          (fun ic =>
            henryCands db maxGen maxGen (some ic.2)
              (("1" : String).push (henryChar ic.1)) 2))) with
    | none => exact ⟨"1", by simp [minStr?, hr, optMinStr]⟩
    | some t => exact ⟨min "1" t, by simp [minStr?, hr, optMinStr]⟩
  rw [hm]
  have hle : m ≤ "1" := minStr?_le _ m "1" hm (List.mem_cons_self _ _)
  have hmem := minStr?_mem _ m hm
  have hge : ("1" : String) ≤ m := by
    rcases List.mem_cons.mp hmem with he | he
    · rw [he]
    · obtain ⟨p, hpmem, hpeq⟩ := List.mem_filterMap.mp he
      by_cases hp1 : p.1 = center
      · rw [if_pos hp1] at hpeq
        have hpc : p ∈ henryCands db maxGen (maxGen + 1) (some center)
            "1" 1 := by
          rw [hcons]
          exact List.mem_cons_of_mem _ hpmem
        obtain ⟨t, ht⟩ := henryCands_extend_pid db maxGen (maxGen + 1)
          (some center) "1" 1 p hpc
        have : p.2 = m := Option.some.injEq _ _ ▸ hpeq
        exact str_le_of_data_extend "1" m t (by rw [← this]; exact ht)
      · rw [if_neg hp1] at hpeq; cases hpeq
  exact congrArg some (le_antisymm hle hge)

/-- Merge an optional stored number with an optional candidate under
unconditional overwriting (the d'Aboville and Modified Henry update). -/
def optOverride : Option String → Option String → Option String
  | a, none => a
  | _, some b => some b

theorem optOverride_none_left (b : Option String) :
    optOverride none b = b := by
  cases b <;> rfl

theorem optOverride_assoc (a b c : Option String) :
    optOverride (optOverride a b) c = optOverride a (optOverride b c) := by
  cases b <;> cases c <;> rfl

/-- The last string of a list (none for the empty list). -/
def lastStr? : List String → Option String
  | [] => none
  | s :: rest => optOverride (some s) (lastStr? rest)

theorem lastStr?_append (l1 l2 : List String) :
    lastStr? (l1 ++ l2) = optOverride (lastStr? l1) (lastStr? l2) := by
  induction l1 with
  | nil => cases h : lastStr? l2 <;> simp [lastStr?, optOverride, h]
  | cons s l1 ih => simp [lastStr?, ih, optOverride_assoc]

theorem lookup_dabovilleUpdate (d : List (Nat × String)) (handle : Nat)
    (pid : String) (h : Nat) :
    List.lookup h (dabovilleDnumberUpdate d handle pid)
      = optOverride (List.lookup h d)
          (lastStr? (valuesFor h [(handle, pid)])) := by
  unfold dabovilleDnumberUpdate
  by_cases hh : h = handle
  · subst hh
    simp [lookup_dictSet, valuesFor, lastStr?, optOverride]
  · have hh2 : ¬handle = h := fun e => hh e.symm
    simp [lookup_dictSet, hh, valuesFor, hh2, lastStr?, optOverride]

/-- The (person, candidate number) pairs `apply_daboville_filter`
proposes: the person itself with the incoming number, then, for each
child at 1-based position `k` across all families, the candidates of the
subtree entered with the number `pid + "." + str(k)`; nothing beyond the
generation limit. -/
def dabovilleCands (db : GDb) (maxGen : Nat) :
    Nat → Option Nat → String → Nat → List (Nat × String)
  | 0, _, _, _ => []
  | _ + 1, none, _, _ => []
  | fuel + 1, some handle, pid, curGen =>
      if curGen > maxGen then []
      else
        (handle, pid) ::
          (childrenAcrossFamilies db handle).enum.flatMap
            (fun ic =>
              dabovilleCands db maxGen fuel (some ic.2)
                (pid ++ "." ++ toString (ic.1 + 1)) (curGen + 1))

theorem daboville_fold_lookup (db : GDb) (maxGen fuel : Nat)
    (ih : ∀ (hop : Option Nat) (index : Nat) (pid : String) (curGen : Nat)
        (st : DownState) (h : Nat),
      List.lookup h
          (apply_daboville_filter_aux db maxGen fuel hop index pid curGen
            st).dnumber
        = optOverride (List.lookup h st.dnumber)
            (lastStr? (valuesFor h (dabovilleCands db maxGen fuel hop pid
              curGen)))) :
    ∀ (L : List (Nat × Nat)) (pid : String) (curGen : Nat)
      (st : DownState) (h : Nat),
    List.lookup h
        ((L.foldl
          (fun acc ic =>
            apply_daboville_filter_aux db maxGen fuel (some ic.2)
              (mapMaxKey acc.map + 1) (pid ++ "." ++ toString (ic.1 + 1))
              (curGen + 1) acc) st)).dnumber
      = optOverride (List.lookup h st.dnumber)
          (lastStr? (valuesFor h
            (L.flatMap (fun ic =>
              dabovilleCands db maxGen fuel (some ic.2)
                (pid ++ "." ++ toString (ic.1 + 1)) (curGen + 1))))) := by
  intro L
  induction L with
  | nil => intro pid curGen st h; simp [lastStr?, valuesFor, optOverride]
  | cons ic L ihL =>
      intro pid curGen st h
      simp only [List.foldl_cons, List.flatMap_cons]
      rw [ihL, ih, valuesFor_append, lastStr?_append, optOverride_assoc]

theorem daboville_aux_lookup (db : GDb) (maxGen : Nat) :
    ∀ (fuel : Nat) (hop : Option Nat) (index : Nat) (pid : String)
      (curGen : Nat) (st : DownState) (h : Nat),
    List.lookup h
        (apply_daboville_filter_aux db maxGen fuel hop index pid curGen
          st).dnumber
      = optOverride (List.lookup h st.dnumber)
          (lastStr? (valuesFor h
            (dabovilleCands db maxGen fuel hop pid curGen))) := by
  intro fuel
  induction fuel with
  | zero =>
      intro hop index pid curGen st h
      simp [apply_daboville_filter_aux, dabovilleCands, valuesFor,
        lastStr?, optOverride]
  | succ fuel ih =>
      intro hop index pid curGen st h
      cases hop with
      | none =>
          simp [apply_daboville_filter_aux, dabovilleCands, valuesFor,
            lastStr?, optOverride]
      | some handle =>
          by_cases hg : curGen > maxGen
          · simp [apply_daboville_filter_aux, dabovilleCands, hg,
              valuesFor, lastStr?, optOverride]
          · simp only [apply_daboville_filter_aux, dabovilleCands,
              if_neg hg]
            rw [daboville_fold_lookup db maxGen fuel ih]
            have hsingle :
                valuesFor h ([(handle, pid)]) ++
                    valuesFor h
                      ((childrenAcrossFamilies db handle).enum.flatMap
                        (fun ic =>
                          dabovilleCands db maxGen fuel (some ic.2)
                            (pid ++ "." ++ toString (ic.1 + 1))
                            (curGen + 1)))
                  = valuesFor h ((handle, pid) ::
                      (childrenAcrossFamilies db handle).enum.flatMap
                        (fun ic =>
                          dabovilleCands db maxGen fuel (some ic.2)
                            (pid ++ "." ++ toString (ic.1 + 1))
                            (curGen + 1))) := by
              rw [← valuesFor_append]; rfl
            rw [← hsingle, lastStr?_append, ← optOverride_assoc]
            congr 1
            exact lookup_dabovilleUpdate st.dnumber handle pid h

theorem lookup_mem_pairs {α β : Type} [BEq α] [LawfulBEq α]
    (l : List (α × β)) (k : α) (v : β) (h : List.lookup k l = some v) :
    (k, v) ∈ l := by
  induction l with
  | nil => simp [List.lookup] at h
  | cons p rest ih =>
      obtain ⟨k0, v0⟩ := p
      simp only [List.lookup] at h
      cases hb : k == k0 with
      | true =>
          rw [hb] at h
          have hk : k = k0 := eq_of_beq hb
          simp only [Option.some.injEq] at h
          rw [hk, h]
          exact List.mem_cons_self _ _
      | false =>
          rw [hb] at h
          exact List.mem_cons_of_mem _ (ih h)

theorem mem_of_mem_enum {α : Type} {l : List α} {ic : Nat × α}
    (h : ic ∈ l.enum) : ic.2 ∈ l := by
  rw [List.mem_enum_iff_getElem?] at h
  exact List.getElem?_mem h

theorem childrenAcross_mem_family (db : GDb) (handle x : Nat)
    (h : x ∈ childrenAcrossFamilies db handle) :
    ∃ fp ∈ db.families, x ∈ fp.2.child_ref_list := by
  unfold childrenAcrossFamilies at h
  rw [List.mem_flatten] at h
  obtain ⟨L, hL, hx⟩ := h
  rw [List.mem_map] at hL
  obtain ⟨fh, _, hfh⟩ := hL
  subst hfh
  unfold getFamily at hx
  cases hlk : List.lookup fh db.families with
  | none => rw [hlk] at hx; simp [emptyFamily] at hx
  | some fam =>
      rw [hlk] at hx
      exact ⟨(fh, fam), lookup_mem_pairs db.families fh fam hlk, hx⟩

theorem dabovilleCands_person (db : GDb) (maxGen : Nat) :
    ∀ (fuel : Nat) (hop : Option Nat) (pid : String) (curGen : Nat)
      (p : Nat × String), p ∈ dabovilleCands db maxGen fuel hop pid curGen →
      hop = some p.1 ∨ ∃ fp ∈ db.families, p.1 ∈ fp.2.child_ref_list := by
  intro fuel
  induction fuel with
  | zero => intro hop pid curGen p hp; simp [dabovilleCands] at hp
  | succ fuel ih =>
      intro hop pid curGen p hp
      cases hop with
      | none => simp [dabovilleCands] at hp
      | some handle =>
          by_cases hg : curGen > maxGen
          · simp [dabovilleCands, hg] at hp
          · simp only [dabovilleCands, if_neg hg, List.mem_cons] at hp
            rcases hp with hp | hp
            · left; rw [hp]
            · rw [List.mem_flatMap] at hp
              obtain ⟨ic, hic, hmem⟩ := hp
              rcases ih (some ic.2) (pid ++ "." ++ toString (ic.1 + 1))
                  (curGen + 1) p hmem with hcase | hcase
              · right
                have h2 : p.1 = ic.2 := by
                  injection hcase with he; exact he.symm
                rw [h2]
                exact childrenAcross_mem_family db handle ic.2
                  (mem_of_mem_enum hic)
              · right; exact hcase

/-- C5: in the descendant report with the d'Aboville scheme, numbering
is deterministic at every generation: on a database where the center
person is not recorded as anyone's child (no descent cycle through the
center), `apply_daboville_filter(center, 1, "1")` gives the center
person `"1"`, and each person receives the candidate number of the last
descent path that reaches it, where the candidate of the `k`-th child
(1-based, counted across all of the parent's families) of a person with
candidate `p` is `p + "." + str(k)`, the traversal being cut beyond
`max_generations`. -/
theorem daboville_numbering_characterized (db : GDb)
    (maxGen center : Nat) (hg : 1 ≤ maxGen)
    (hnc : ∀ fp ∈ db.families, center ∉ fp.2.child_ref_list) :
    write_report_numbering db maxGen center "d'Aboville"
        = some (apply_daboville_filter db maxGen center 1 "1") ∧
    (∀ h : Nat,
      List.lookup h
          (apply_daboville_filter db maxGen center 1 "1").dnumber
        = lastStr? (valuesFor h
            (dabovilleCands db maxGen (maxGen + 1) (some center) "1"
              1))) ∧
    List.lookup center
        (apply_daboville_filter db maxGen center 1 "1").dnumber
      = some "1" := by
  have hchar : ∀ h : Nat,
      List.lookup h
          (apply_daboville_filter db maxGen center 1 "1").dnumber
        = lastStr? (valuesFor h
            (dabovilleCands db maxGen (maxGen + 1) (some center) "1"
              1)) := by
    intro h
    unfold apply_daboville_filter
    rw [daboville_aux_lookup]
    rw [show List.lookup h
        (DownState.dnumber ⟨[], [], []⟩) = none from rfl]
    rw [optOverride_none_left]
  refine ⟨rfl, hchar, ?_⟩
  rw [hchar center]
  have hg1 : ¬(1 > maxGen) := by omega
  have hcons : dabovilleCands db maxGen (maxGen + 1) (some center) "1" 1
      = (center, "1") ::
        (childrenAcrossFamilies db center).enum.flatMap
          (fun ic =>
            dabovilleCands db maxGen maxGen (some ic.2)
              ("1" ++ "." ++ toString (ic.1 + 1)) 2) := by
    show dabovilleCands db maxGen (maxGen + 1) (some center) "1" 1 = _
    rw [dabovilleCands, if_neg hg1]
  rw [hcons]
  have hflat : valuesFor center
      ((childrenAcrossFamilies db center).enum.flatMap
        (fun ic =>
          dabovilleCands db maxGen maxGen (some ic.2)
            ("1" ++ "." ++ toString (ic.1 + 1)) 2)) = [] := by
    by_contra hne
    obtain ⟨m, hm⟩ : ∃ m, m ∈ valuesFor center
        ((childrenAcrossFamilies db center).enum.flatMap
          (fun ic =>
            dabovilleCands db maxGen maxGen (some ic.2)
              ("1" ++ "." ++ toString (ic.1 + 1)) 2)) := by
      cases hv : valuesFor center
          ((childrenAcrossFamilies db center).enum.flatMap
            (fun ic =>
              dabovilleCands db maxGen maxGen (some ic.2)
                ("1" ++ "." ++ toString (ic.1 + 1)) 2)) with
      | nil => exact absurd hv hne
      | cons a rest => exact ⟨a, hv ▸ List.mem_cons_self a rest⟩
    obtain ⟨p, hpmem, hpeq⟩ := List.mem_filterMap.mp hm
    by_cases hp1 : p.1 = center
    · rw [List.mem_flatMap] at hpmem
      obtain ⟨ic, hic, hmem⟩ := hpmem
      rcases dabovilleCands_person db maxGen maxGen (some ic.2)
          ("1" ++ "." ++ toString (ic.1 + 1)) 2 p hmem with hcase | hcase
      · have h2 : p.1 = ic.2 := by
          injection hcase with he; exact he.symm
        obtain ⟨fp, hfp, hcmem⟩ := childrenAcross_mem_family db center
          ic.2 (mem_of_mem_enum hic)
        exact hnc fp hfp (by rw [← h2, hp1] at hcmem; exact hcmem)
      · obtain ⟨fp, hfp, hcmem⟩ := hcase
        exact hnc fp hfp (hp1 ▸ hcmem)
    · rw [if_neg hp1] at hpeq; cases hpeq
  have hvals : valuesFor center ((center, "1") ::
      (childrenAcrossFamilies db center).enum.flatMap
        (fun ic =>
          dabovilleCands db maxGen maxGen (some ic.2)
            ("1" ++ "." ++ toString (ic.1 + 1)) 2))
      = "1" :: valuesFor center
          ((childrenAcrossFamilies db center).enum.flatMap
            (fun ic =>
              dabovilleCands db maxGen maxGen (some ic.2)
                ("1" ++ "." ++ toString (ic.1 + 1)) 2)) := by
    simp [valuesFor]
  rw [hvals, hflat]
  rfl

/-- A small demonstration database: center person 1 and spouse 2 with
children 3 and 4, who marry each other (a cousin-marriage-style
duplicate) and have the child 5, reachable along two descent paths. -/
def demoDownDb : GDb :=
  { persons :=
      [(1, ⟨1, "I0001", ⟨"", "", []⟩, [10], none, none, none⟩),
       (2, ⟨2, "I0002", ⟨"", "", []⟩, [10], none, none, none⟩),
       (3, ⟨3, "I0003", ⟨"", "", []⟩, [11], some 10, none, none⟩),
       (4, ⟨4, "I0004", ⟨"", "", []⟩, [11], some 10, none, none⟩),
       (5, ⟨5, "I0005", ⟨"", "", []⟩, [], some 11, none, none⟩)]
    families := [(10, ⟨some 1, some 2, [3, 4]⟩),
                 (11, ⟨some 3, some 4, [5]⟩)]
    events := []
    gramps_index := [("I0001", 1)]
    event_place_str := []
    date_span := fun _ _ => none }

theorem henry_numbering_characterized_witness :
    (1 ≤ 3) ∧
    (∀ p ∈ demoDownDb.persons,
      (childrenAcrossFamilies demoDownDb p.1).length ≤ 35) ∧
    List.lookup 5 (apply_henry_filter demoDownDb 3 1 1 "1").dnumber
      = minStr? (valuesFor 5 (henryCands demoDownDb 3 4 (some 1) "1" 1)) ∧
    List.lookup 1 (apply_henry_filter demoDownDb 3 1 1 "1").dnumber
      = some "1" :=
  ⟨by decide, by decide,
    (henry_numbering_characterized demoDownDb 3 1 (by decide)
      (by decide)).2.1 5,
    (henry_numbering_characterized demoDownDb 3 1 (by decide)
      (by decide)).2.2⟩

theorem daboville_numbering_characterized_witness :
    (1 ≤ 3) ∧
    (∀ fp ∈ demoDownDb.families, 1 ∉ fp.2.child_ref_list) ∧
    List.lookup 5 (apply_daboville_filter demoDownDb 3 1 1 "1").dnumber
      = lastStr? (valuesFor 5
          (dabovilleCands demoDownDb 3 4 (some 1) "1" 1)) ∧
    List.lookup 1 (apply_daboville_filter demoDownDb 3 1 1 "1").dnumber
      = some "1" :=
  ⟨by decide, by decide,
    (daboville_numbering_characterized demoDownDb 3 1 (by decide)
      (by decide)).2.1 5,
    (daboville_numbering_characterized demoDownDb 3 1 (by decide)
      (by decide)).2.2⟩

/-- Modelled from the spec: the candidate numbers of the Modified Henry
scheme as claim C4 states it, applied at every generation of the
traversal: each child's number is its parent's number followed by the
child's 1-based position, parenthesized when the position is 10 or
greater. -/
def modifiedHenrySpecCands (db : GDb) (maxGen : Nat) :
    Nat → Option Nat → String → Nat → List (Nat × String)
  | 0, _, _, _ => []
  | _ + 1, none, _, _ => []
  | fuel + 1, some handle, pid, curGen =>
      if curGen > maxGen then []
      else
        (handle, pid) ::
          (childrenAcrossFamilies db handle).enum.flatMap
            (fun ic =>
              modifiedHenrySpecCands db maxGen fuel (some ic.2)
                (pid ++ mhenry (ic.1 + 1)) (curGen + 1))

/-- A demonstration database for the Modified Henry scheme: center
person 1 with a single child 2, which has ten children 21..30. -/
def mhenryDemoDb : GDb :=
  { persons :=
      [(1, ⟨1, "I0001", ⟨"", "", []⟩, [10], none, none, none⟩),
       (2, ⟨2, "I0002", ⟨"", "", []⟩, [11], some 10, none, none⟩)]
    families :=
      [(10, ⟨some 1, none, [2]⟩),
       (11, ⟨some 2, none,
         [21, 22, 23, 24, 25, 26, 27, 28, 29, 30]⟩)]
    events := []
    gramps_index := [("I0001", 1)]
    event_place_str := []
    date_span := fun _ _ => none }

/-- C4: when the "Modified Henry" scheme is selected, the code does NOT
apply the Modified Henry scheme at every generation:
`apply_mhenry_filter` recurses through `apply_henry_filter`, so from the
grandchildren of the center person on, numbers are extended with the
Henry alphabet at the 0-based child position instead of the 1-based
parenthesized position.  On `mhenryDemoDb`, the tenth child (person 30)
of person 2 (numbered "11") receives "11A" = "11" + HENRY[9], while the
Modified Henry scheme of the claim (`modifiedHenrySpecCands`) assigns
"11(10)". -/
theorem mhenry_recursion_code_bug :
    write_report_numbering mhenryDemoDb 3 1 "Modified Henry"
        = some (apply_mhenry_filter mhenryDemoDb 3 1 1 "1") ∧
    List.lookup 30 (apply_mhenry_filter mhenryDemoDb 3 1 1 "1").dnumber
      = some "11A" ∧
    lastStr? (valuesFor 30
        (modifiedHenrySpecCands mhenryDemoDb 3 4 (some 1) "1" 1))
      = some "11(10)" ∧
    ("11A" : String) ≠ "11(10)" :=
  ⟨rfl, by decide, by decide, by decide⟩

/- ----------------------------------------------------------------- -/
/- latex_up.py: ancestor traversal and Sosa numbering (claim C2)     -/
/- ----------------------------------------------------------------- -/

/-- `LatexUpReport.apply_filter`, by recursion on remaining generations
(`fuel`).  The guard `index >= 2**max_generations` returns before the
fuel can run out when the function is entered with
`index * 2^fuel >= 2^max_generations`, which `apply_filter`
establishes. -/
def apply_filter_aux (db : GDb) (maxGen : Nat) :
    Nat → Option Nat → Nat → List (Nat × Nat) → List (Nat × Nat)
  | 0, _, _, m => m
  | _ + 1, none, _, m => m
  | fuel + 1, some handle, index, m =>
      if index ≥ 2 ^ maxGen then m
      else
        let m1 := dictSet m index handle
        match (getPerson db handle).main_parents_family with
        | none => m1
        | some fh =>
            let fam := getFamily db fh
            let m2 := apply_filter_aux db maxGen fuel fam.father_handle
              (index * 2) m1
            apply_filter_aux db maxGen fuel fam.mother_handle
              (index * 2 + 1) m2

/-- `apply_filter(person_handle, 1)` as `write_report` calls it on the
center person, starting from the empty `self.map`. -/
def apply_filter (db : GDb) (maxGen : Nat) (root : Nat) :
    List (Nat × Nat) :=
  apply_filter_aux db maxGen (maxGen + 1) (some root) 1 []

/-- The person the Sosa-Stradonitz scheme of the claim places at
absolute index `idx` when index `i` holds `hop`: index `i` holds `hop`
itself, and for every index `n`, index `2n` holds the father and index
`2n + 1` the mother (through the main parents family) of the person at
`n`; indices outside the binary subtree of `i`, or whose chain of
persons breaks off, hold nobody. -/
def sosaFrom (db : GDb) (hop : Option Nat) (i : Nat) (idx : Nat) :
    Option Nat :=
  if idx = i then hop
  else if idx ≤ i then none
  else
    match sosaFrom db hop i (idx / 2) with
    | none => none
    | some p =>
        match (getPerson db p).main_parents_family with
        | none => none
        | some fh =>
            if idx % 2 = 0 then (getFamily db fh).father_handle
            else (getFamily db fh).mother_handle
termination_by idx
decreasing_by
  have h1 : 0 < idx := by omega
  exact Nat.div_lt_self h1 (by omega)

theorem sosaFrom_self (db : GDb) (hop : Option Nat) (i : Nat) :
    sosaFrom db hop i i = hop := by
  rw [sosaFrom]; simp

theorem sosaFrom_le_ne (db : GDb) (hop : Option Nat) (i idx : Nat)
    (h1 : idx ≤ i) (h2 : idx ≠ i) : sosaFrom db hop i idx = none := by
  rw [sosaFrom]; simp [h1, h2]

theorem sosaFrom_gt (db : GDb) (hop : Option Nat) (i idx : Nat)
    (h : i < idx) :
    sosaFrom db hop i idx =
      match sosaFrom db hop i (idx / 2) with
      | none => none
      | some p =>
          match (getPerson db p).main_parents_family with
          | none => none
          | some fh =>
              if idx % 2 = 0 then (getFamily db fh).father_handle
              else (getFamily db fh).mother_handle := by
  rw [sosaFrom]
  have h1 : idx ≠ i := by omega
  have h2 : ¬idx ≤ i := by omega
  simp [h1, h2]

theorem sosaFrom_none (db : GDb) (i : Nat) : ∀ idx,
    sosaFrom db none i idx = none := by
  intro idx
  induction idx using Nat.strong_induction_on with
  | _ idx ih =>
      by_cases he : idx = i
      · rw [he, sosaFrom_self]
      · by_cases hle : idx ≤ i
        · exact sosaFrom_le_ne db none i idx hle he
        · rw [sosaFrom_gt db none i idx (by omega)]
          rw [ih (idx / 2) (Nat.div_lt_self (by omega) (by omega))]

theorem sosaFrom_no_parents (db : GDb) (handle i : Nat)
    (hp : (getPerson db handle).main_parents_family = none) :
    ∀ idx, idx ≠ i → sosaFrom db (some handle) i idx = none := by
  intro idx
  induction idx using Nat.strong_induction_on with
  | _ idx ih =>
      intro hne
      by_cases hle : idx ≤ i
      · exact sosaFrom_le_ne db (some handle) i idx hle hne
      · rw [sosaFrom_gt db (some handle) i idx (by omega)]
        by_cases heq : idx / 2 = i
        · rw [heq, sosaFrom_self]
          simp [hp]
        · rw [ih (idx / 2) (Nat.div_lt_self (by omega) (by omega)) heq]

theorem sosaFrom_disjoint (db : GDb) (a b : Option Nat) (i : Nat)
    (hi : 1 ≤ i) :
    ∀ idx x, sosaFrom db a (i * 2) idx = some x →
      sosaFrom db b (i * 2 + 1) idx = none := by
  intro idx
  induction idx using Nat.strong_induction_on with
  | _ idx ih =>
      intro x hx
      rcases Nat.lt_trichotomy idx (i * 2) with hc | hc | hc
      · rw [sosaFrom_le_ne db a (i * 2) idx (by omega) (by omega)] at hx
        cases hx
      · subst hc
        exact sosaFrom_le_ne db b (i * 2 + 1) (i * 2) (by omega)
          (by omega)
      · by_cases hc1 : idx = i * 2 + 1
        · rw [hc1, sosaFrom_gt db a (i * 2) (i * 2 + 1) (by omega)]
            at hx
          rw [show (i * 2 + 1) / 2 = i from by omega] at hx
          rw [sosaFrom_le_ne db a (i * 2) i (by omega) (by omega)] at hx
          cases hx
        · have hgt : i * 2 + 1 < idx := by omega
          rw [sosaFrom_gt db a (i * 2) idx (by omega)] at hx
          rw [sosaFrom_gt db b (i * 2 + 1) idx (by omega)]
          cases hin : sosaFrom db a (i * 2) (idx / 2) with
          | none => rw [hin] at hx; cases hx
          | some p =>
              rw [ih (idx / 2) (Nat.div_lt_self (by omega) (by omega))
                p hin]

theorem sosaFrom_split (db : GDb) (handle i : Nat) (fh : Nat)
    (hi : 1 ≤ i)
    (hp : (getPerson db handle).main_parents_family = some fh) :
    ∀ idx, idx ≠ i →
      sosaFrom db (some handle) i idx
        = Option.or
            (sosaFrom db (getFamily db fh).father_handle (i * 2) idx)
            (sosaFrom db (getFamily db fh).mother_handle (i * 2 + 1)
              idx) := by
  intro idx
  induction idx using Nat.strong_induction_on with
  | _ idx ih =>
      intro hne
      by_cases hle : idx ≤ i
      · rw [sosaFrom_le_ne db (some handle) i idx hle hne,
          sosaFrom_le_ne db _ (i * 2) idx (by omega) (by omega),
          sosaFrom_le_ne db _ (i * 2 + 1) idx (by omega) (by omega)]
        rfl
      · by_cases hfa : idx = i * 2
        · subst hfa
          rw [sosaFrom_gt db (some handle) i (i * 2) (by omega)]
          rw [show i * 2 / 2 = i from by omega, sosaFrom_self]
          rw [sosaFrom_self db _ (i * 2)]
          rw [sosaFrom_le_ne db _ (i * 2 + 1) (i * 2) (by omega)
            (by omega)]
          simp [hp, show i * 2 % 2 = 0 from by omega]
        · by_cases hmo : idx = i * 2 + 1
          · subst hmo
            rw [sosaFrom_gt db (some handle) i (i * 2 + 1) (by omega)]
            rw [show (i * 2 + 1) / 2 = i from by omega, sosaFrom_self]
            rw [sosaFrom_gt db _ (i * 2) (i * 2 + 1) (by omega)]
            rw [show (i * 2 + 1) / 2 = i from by omega]
            rw [sosaFrom_le_ne db _ (i * 2) i (by omega) (by omega)]
            rw [sosaFrom_self db _ (i * 2 + 1)]
            simp [hp, show (i * 2 + 1) % 2 = 1 from by omega]
          · by_cases hmid : idx < i * 2
            · rw [sosaFrom_gt db (some handle) i idx (by omega)]
              rw [sosaFrom_le_ne db (some handle) i (idx / 2) (by omega)
                (by omega)]
              rw [sosaFrom_le_ne db _ (i * 2) idx (by omega) (by omega)]
              rw [sosaFrom_le_ne db _ (i * 2 + 1) idx (by omega)
                (by omega)]
              rfl
            · have hbig : i * 2 + 1 < idx := by omega
              rw [sosaFrom_gt db (some handle) i idx (by omega)]
              rw [ih (idx / 2) (Nat.div_lt_self (by omega) (by omega))
                (by omega)]
              rw [sosaFrom_gt db _ (i * 2) idx (by omega)]
              rw [sosaFrom_gt db _ (i * 2 + 1) idx (by omega)]
              cases hA : sosaFrom db (getFamily db fh).father_handle
                  (i * 2) (idx / 2) with
              | some p =>
                  rw [sosaFrom_disjoint db _ _ i hi (idx / 2) p hA]
                  exact Option.or_none.symm
              | none =>
                  cases hB : sosaFrom db (getFamily db fh).mother_handle
                      (i * 2 + 1) (idx / 2) with
                  | none => simp [Option.or]
                  | some q => simp [Option.or]

theorem apply_filter_aux_lookup (db : GDb) (maxGen : Nat) :
    ∀ (fuel : Nat) (hop : Option Nat) (i : Nat) (m : List (Nat × Nat))
      (idx : Nat), 1 ≤ i → 2 ^ maxGen ≤ i * 2 ^ fuel →
    List.lookup idx (apply_filter_aux db maxGen fuel hop i m)
      = Option.or
          (if idx < 2 ^ maxGen then sosaFrom db hop i idx else none)
          (List.lookup idx m) := by
  intro fuel
  induction fuel with
  | zero =>
      intro hop i m idx hi hside
      simp only [apply_filter_aux]
      have hni : idx < 2 ^ maxGen → sosaFrom db hop i idx = none := by
        intro hidx
        have : idx < i := by
          have := hside
          simp only [pow_zero, mul_one] at this
          omega
        exact sosaFrom_le_ne db hop i idx (by omega) (by omega)
      by_cases hidx : idx < 2 ^ maxGen
      · rw [if_pos hidx, hni hidx, Option.none_or]
      · rw [if_neg hidx, Option.none_or]
  | succ fuel ih =>
      intro hop i m idx hi hside
      cases hop with
      | none =>
          simp only [apply_filter_aux, sosaFrom_none]
          by_cases hidx : idx < 2 ^ maxGen <;> simp [hidx]
      | some handle =>
          by_cases hguard : i ≥ 2 ^ maxGen
          · simp only [apply_filter_aux, if_pos hguard]
            have hni : idx < 2 ^ maxGen →
                sosaFrom db (some handle) i idx = none := by
              intro hidx
              exact sosaFrom_le_ne db _ i idx (by omega) (by omega)
            by_cases hidx : idx < 2 ^ maxGen
            · rw [if_pos hidx, hni hidx, Option.none_or]
            · rw [if_neg hidx, Option.none_or]
          · have hguard2 : ¬(i ≥ 2 ^ maxGen) := hguard
            simp only [apply_filter_aux, if_neg hguard2]
            cases hpar : (getPerson db handle).main_parents_family with
            | none =>
                rw [lookup_dictSet]
                by_cases heq : idx = i
                · subst heq
                  rw [if_pos rfl, if_pos (by omega), sosaFrom_self]
                  rfl
                · rw [if_neg heq]
                  have hz : (if idx < 2 ^ maxGen then
                      sosaFrom db (some handle) i idx else none)
                      = none := by
                    by_cases hidx : idx < 2 ^ maxGen
                    · rw [if_pos hidx,
                        sosaFrom_no_parents db handle i hpar idx heq]
                    · rw [if_neg hidx]
                  rw [hz, Option.none_or]
            | some fh =>
                rw [ih _ (i * 2 + 1) _ idx (by omega)
                    (by
                      have : i * 2 * 2 ^ fuel ≤ (i * 2 + 1) * 2 ^ fuel :=
                        Nat.mul_le_mul_right _ (by omega)
                      have h2 : i * 2 ^ (fuel + 1) = i * 2 * 2 ^ fuel := by
                        ring
                      omega),
                  ih _ (i * 2) _ idx (by omega)
                    (by
                      have h2 : i * 2 ^ (fuel + 1) = i * 2 * 2 ^ fuel := by
                        ring
                      omega),
                  lookup_dictSet]
                by_cases heq : idx = i
                · subst heq
                  rw [if_pos rfl]
                  have hmo : sosaFrom db (getFamily db fh).mother_handle
                      (idx * 2 + 1) idx = none :=
                    sosaFrom_le_ne db _ _ idx (by omega) (by omega)
                  have hfa : sosaFrom db (getFamily db fh).father_handle
                      (idx * 2) idx = none :=
                    sosaFrom_le_ne db _ _ idx (by omega) (by omega)
                  have hidx : idx < 2 ^ maxGen := by omega
                  simp only [if_pos hidx]
                  rw [hmo, hfa, sosaFrom_self]
                  rfl
                · rw [if_neg heq]
                  by_cases hidx : idx < 2 ^ maxGen
                  · rw [if_pos hidx, if_pos hidx, if_pos hidx]
                    rw [sosaFrom_split db handle i fh hi hpar idx heq]
                    rw [← Option.or_assoc]
                    congr 1
                    cases hA : sosaFrom db (getFamily db fh).father_handle
                        (i * 2) idx with
                    | some p =>
                        rw [sosaFrom_disjoint db _ _ i hi idx p hA]
                        rfl
                    | none => simp
                  · rw [if_neg hidx, if_neg hidx, if_neg hidx]
                    simp

/-- `LatexUpReport._get_s_s` with the C library computation
`int(math.floor(math.log(key, 2)))` abstracted as the argument `flog2`
(the double-precision logarithm is evaluated outside the program, like
the host database API; it equals the exact integer base-2 logarithm
`Nat.log 2` on small keys but overshoots it on keys just below a power
of two from `2^48 - 1` on).  Python integers are unbounded and
`key - gen_start` is negative when `flog2` overshoots, hence `Int`:
`generation = flog2(key)`, `gen_start = 2**generation`,
`new_gen_start = initial_sosa * gen_start`,
result `new_gen_start + (key - gen_start)`. -/
def get_s_s_float (flog2 : Nat → Nat) (initial_sosa key : Nat) : Int :=
  let generation := flog2 key
  let gen_start : Int := 2 ^ generation
  let new_gen_start : Int := initial_sosa * gen_start
  new_gen_start + ((key : Int) - gen_start)

/-- `LatexUpReport._get_s_s` specialised to an exact base-2 logarithm:
the displayed Sosa-Stradonitz number on the keys where the library
logarithm is exact (in particular every key below `2^48 - 1`, the
smallest key on which the double-precision value diverges). -/
def get_s_s (initial_sosa key : Nat) : Nat :=
  let generation := Nat.log 2 key
  let gen_start := 2 ^ generation
  let new_gen_start := initial_sosa * gen_start
  new_gen_start + (key - gen_start)

theorem get_s_s_float_exact (flog2 : Nat → Nat) (s key : Nat)
    (hex : flog2 key = Nat.log 2 key) (hk : 1 ≤ key) :
    get_s_s_float flog2 s key = (get_s_s s key : Nat) := by
  have hle : 2 ^ Nat.log 2 key ≤ key :=
    Nat.pow_log_le_self 2 (by omega)
  unfold get_s_s_float get_s_s
  rw [hex]
  rw [Nat.cast_add, Nat.cast_mul, Nat.cast_sub hle]
  push_cast
  ring

/-- A small demonstration database for the ancestor report: center
person 1 with father 2 and mother 3; the father's parents are 4 and 5. -/
def demoUpDb : GDb :=
  { persons :=
      [(1, ⟨1, "I0001", ⟨"", "", []⟩, [], some 20, none, none⟩),
       (2, ⟨2, "I0002", ⟨"", "", []⟩, [20], some 21, none, none⟩),
       (3, ⟨3, "I0003", ⟨"", "", []⟩, [20], none, none, none⟩),
       (4, ⟨4, "I0004", ⟨"", "", []⟩, [21], none, none, none⟩),
       (5, ⟨5, "I0005", ⟨"", "", []⟩, [21], none, none, none⟩)]
    families := [(20, ⟨some 2, some 3, [1]⟩),
                 (21, ⟨some 4, some 5, [2]⟩)]
    events := []
    gramps_index := [("I0001", 1)]
    event_place_str := []
    date_span := fun _ _ => none }

/-- C2: in the ancestor report, `apply_filter(center, 1)` computes the
Sosa-Stradonitz traversal exactly as the claim states: index 1 holds
the center person; for every index `n` holding person `p` with a main
parents family, index `2n` holds the father and index `2n + 1` the
mother (when those indices are below `2^max_generations`); indices at
or beyond `2^max_generations` are excluded.  The displayed-number
clause, however, fails in the program: `_get_s_s` computes the
generation with the C library's double-precision
`int(math.floor(math.log(key, 2)))` (abstracted as `flog2`), and the
claimed formula `initial_sosa * 2^g + (n - 2^g)` (with
`2^g ≤ n < 2^(g+1)`, hence the index itself for `initial_sosa = 1`)
holds exactly on the keys where that library value equals the true
base-2 logarithm.  At key `2^48 - 1` — reachable, since the
generation option goes up to 100 — the library value is 48 while the
true generation is 47, so with `initial_sosa = 2` the program displays
`2^49 - 1` where the claim requires
`2 * 2^47 + (2^48 - 1 - 2^47) = 3 * 2^47 - 1`: a code bug in the
generation computation for deep trees. -/
theorem sosa_numbering_code_bug (db : GDb) (maxGen root : Nat)
    (hg : 1 ≤ maxGen) :
    (∀ idx, List.lookup idx (apply_filter db maxGen root)
        = if idx < 2 ^ maxGen then sosaFrom db (some root) 1 idx
          else none) ∧
    List.lookup 1 (apply_filter db maxGen root) = some root ∧
    (∀ n p fh, List.lookup n (apply_filter db maxGen root) = some p →
      (getPerson db p).main_parents_family = some fh →
      (n * 2 < 2 ^ maxGen →
        List.lookup (n * 2) (apply_filter db maxGen root)
          = (getFamily db fh).father_handle) ∧
      (n * 2 + 1 < 2 ^ maxGen →
        List.lookup (n * 2 + 1) (apply_filter db maxGen root)
          = (getFamily db fh).mother_handle)) ∧
    (∀ idx, 2 ^ maxGen ≤ idx →
      List.lookup idx (apply_filter db maxGen root) = none) ∧
    (∀ (flog2 : Nat → Nat) s g n, 2 ^ g ≤ n → n < 2 ^ (g + 1) →
      flog2 n = Nat.log 2 n →
      get_s_s_float flog2 s n
        = ((s * 2 ^ g + (n - 2 ^ g) : Nat) : Int)) ∧
    (∀ (flog2 : Nat → Nat) n, 1 ≤ n → flog2 n = Nat.log 2 n →
      get_s_s_float flog2 1 n = n) ∧
    Nat.log 2 (2 ^ 48 - 1) = 47 ∧
    (∀ flog2 : Nat → Nat, flog2 (2 ^ 48 - 1) = 48 →
      get_s_s_float flog2 2 (2 ^ 48 - 1) = 2 ^ 49 - 1) ∧
    ((2 ^ 49 - 1 : Int)
      ≠ ((2 * 2 ^ 47 + (2 ^ 48 - 1 - 2 ^ 47) : Nat) : Int)) := by
  have hchar : ∀ idx, List.lookup idx (apply_filter db maxGen root)
      = if idx < 2 ^ maxGen then sosaFrom db (some root) 1 idx
        else none := by
    intro idx
    unfold apply_filter
    rw [apply_filter_aux_lookup db maxGen (maxGen + 1) (some root) 1 []
      idx (by omega)
      (by
        have : 2 ^ maxGen ≤ 2 ^ (maxGen + 1) :=
          Nat.pow_le_pow_right (by omega) (by omega)
        omega)]
    rw [show List.lookup idx ([] : List (Nat × Nat)) = none from rfl]
    exact Option.or_none
  have h2m : 2 ≤ 2 ^ maxGen := by
    calc 2 = 2 ^ 1 := by norm_num
    _ ≤ 2 ^ maxGen := Nat.pow_le_pow_right (by omega) hg
  refine ⟨hchar, ?_, ?_, ?_, ?_, ?_, ?_, ?_, ?_⟩
  · rw [hchar 1, if_pos (by omega), sosaFrom_self]
  · intro n p fh hn hp
    have hn2 := hn
    rw [hchar n] at hn2
    by_cases hlt : n < 2 ^ maxGen
    · rw [if_pos hlt] at hn2
      have hn1 : 1 ≤ n := by
        by_contra hc
        have h0 : n = 0 := by omega
        rw [h0, sosaFrom_le_ne db _ 1 0 (by omega) (by omega)] at hn2
        cases hn2
      constructor
      · intro hf
        rw [hchar (n * 2), if_pos hf]
        by_cases hone : n = 1
        · subst hone
          rw [sosaFrom_gt db _ 1 (1 * 2) (by omega)]
          rw [show 1 * 2 / 2 = 1 from by omega, sosaFrom_self]
          rw [sosaFrom_self] at hn2
          cases hn2
          simp [hp, show 1 * 2 % 2 = 0 from by omega]
        · rw [sosaFrom_gt db _ 1 (n * 2) (by omega)]
          rw [show n * 2 / 2 = n from by omega, hn2]
          simp [hp, show n * 2 % 2 = 0 from by omega]
      · intro hf
        rw [hchar (n * 2 + 1), if_pos hf]
        rw [sosaFrom_gt db _ 1 (n * 2 + 1) (by omega)]
        rw [show (n * 2 + 1) / 2 = n from by omega, hn2]
        simp [hp, show (n * 2 + 1) % 2 = 1 from by omega]
    · rw [if_neg hlt] at hn2; cases hn2
  · intro idx hidx
    rw [hchar idx, if_neg (by omega)]
  · intro flog2 s g n h1 h2 hex
    have hpos : 0 < 2 ^ g := Nat.pos_pow_of_pos g (by omega)
    rw [get_s_s_float_exact flog2 s n hex (by omega)]
    refine congrArg Nat.cast ?_
    unfold get_s_s
    rw [Nat.log_eq_of_pow_le_of_lt_pow h1 h2]
  · intro flog2 n hn hex
    rw [get_s_s_float_exact flog2 1 n hex hn]
    have hle := Nat.pow_log_le_self 2 (show n ≠ 0 from by omega)
    have h : get_s_s 1 n = n := by
      show 1 * 2 ^ Nat.log 2 n + (n - 2 ^ Nat.log 2 n) = n
      omega
    rw [h]
  · exact Nat.log_eq_of_pow_le_of_lt_pow (by norm_num) (by norm_num)
  · intro flog2 h
    unfold get_s_s_float
    rw [h]
    rw [Nat.cast_sub (show (1 : Nat) ≤ 2 ^ 48 from by norm_num)]
    push_cast
  · have h : (2 * 2 ^ 47 + (2 ^ 48 - 1 - 2 ^ 47) : Nat)
        = 422212465065983 := by norm_num
    rw [h]
    norm_num

theorem sosa_numbering_code_bug_witness :
    (1 ≤ 3) ∧
    List.lookup 2 (apply_filter demoUpDb 3 1)
      = (if 2 < 2 ^ 3 then sosaFrom demoUpDb (some 1) 1 2 else none) ∧
    List.lookup 1 (apply_filter demoUpDb 3 1) = some 1 ∧
    ((2 * 2 < 2 ^ 3 →
        List.lookup (2 * 2) (apply_filter demoUpDb 3 1)
          = (getFamily demoUpDb 21).father_handle) ∧
      (2 * 2 + 1 < 2 ^ 3 →
        List.lookup (2 * 2 + 1) (apply_filter demoUpDb 3 1)
          = (getFamily demoUpDb 21).mother_handle)) ∧
    List.lookup 9 (apply_filter demoUpDb 3 1) = none ∧
    get_s_s_float (Nat.log 2) 3 5
      = ((3 * 2 ^ 2 + (5 - 2 ^ 2) : Nat) : Int) ∧
    get_s_s_float (Nat.log 2) 1 5 = 5 ∧
    get_s_s_float (fun k => if 5 ≤ k then 48 else Nat.log 2 k) 2
      (2 ^ 48 - 1) = 2 ^ 49 - 1 :=
  ⟨by decide,
    (sosa_numbering_code_bug demoUpDb 3 1 (by decide)).1 2,
    (sosa_numbering_code_bug demoUpDb 3 1 (by decide)).2.1,
    (sosa_numbering_code_bug demoUpDb 3 1 (by decide)).2.2.1 2 2 21
      (by decide) (by decide),
    (sosa_numbering_code_bug demoUpDb 3 1 (by decide)).2.2.2.1 9
      (by decide),
    (sosa_numbering_code_bug demoUpDb 3 1
      (by decide)).2.2.2.2.1 (Nat.log 2) 3 2 5 (by decide) (by decide)
      rfl,
    (sosa_numbering_code_bug demoUpDb 3 1
      (by decide)).2.2.2.2.2.1 (Nat.log 2) 5 (by decide) rfl,
    (sosa_numbering_code_bug demoUpDb 3 1
      (by decide)).2.2.2.2.2.2.2.1
      (fun k => if 5 ≤ k then 48 else Nat.log 2 k)
      (by norm_num)⟩

/- ----------------------------------------------------------------- -/
/- Report constructors: center person resolution (claim C10)         -/
/- ----------------------------------------------------------------- -/

/-- The center-person resolution of `LatexDownReport.__init__`:
`self.center_person = self._db.get_person_from_gramps_id(pid)`, raising
`ReportError(_("Person %s is not in the Database") % pid)` when the
lookup returns `None`.  The raise is modelled as `Except.error` carrying
the formatted message: the constructor then produces no report state
(and the report, which is only written by `write_report` on a
constructed report object, emits no output). -/
def latex_down_init_center (db : GDb) (pid : String) :
    Except String Nat :=
  match personFromGrampsId db pid with
  | none => Except.error ("Person " ++ pid ++ " is not in the Database")
  | some h => Except.ok h

/-- The identical center-person resolution of
`LatexUpReport.__init__`. -/
def latex_up_init_center (db : GDb) (pid : String) :
    Except String Nat :=
  match personFromGrampsId db pid with
  | none => Except.error ("Person " ++ pid ++ " is not in the Database")
  | some h => Except.ok h

/-- C10: constructing the descendant or the ancestor LaTeX report
raises `ReportError("Person %s is not in the Database" % pid)` exactly
when the configured center-person Gramps ID does not resolve to a
person in the database; in that case no report state is produced (the
result is the error, not an `ok` state), and when the ID resolves, both
constructors succeed with the resolved center person. -/
theorem init_center_error_characterized :
    (∀ (db : GDb) (pid : String), personFromGrampsId db pid = none →
      latex_down_init_center db pid
          = Except.error ("Person " ++ pid ++ " is not in the Database")
        ∧ latex_up_init_center db pid
          = Except.error ("Person " ++ pid ++ " is not in the Database"))
    ∧
    (∀ (db : GDb) (pid : String) (h : Nat),
      personFromGrampsId db pid = some h →
      latex_down_init_center db pid = Except.ok h
        ∧ latex_up_init_center db pid = Except.ok h) := by
  constructor
  · intro db pid hn
    unfold latex_down_init_center latex_up_init_center
    rw [hn]
    exact ⟨rfl, rfl⟩
  · intro db pid h hs
    unfold latex_down_init_center latex_up_init_center
    rw [hs]
    exact ⟨rfl, rfl⟩

theorem init_center_error_characterized_witness :
    (personFromGrampsId demoDownDb "I9999" = none ∧
      latex_down_init_center demoDownDb "I9999"
        = Except.error "Person I9999 is not in the Database" ∧
      latex_up_init_center demoDownDb "I9999"
        = Except.error "Person I9999 is not in the Database") ∧
    (personFromGrampsId demoDownDb "I0001" = some 1 ∧
      latex_down_init_center demoDownDb "I0001" = Except.ok 1 ∧
      latex_up_init_center demoDownDb "I0001" = Except.ok 1) :=
  ⟨⟨rfl,
    (init_center_error_characterized.1 demoDownDb "I9999" rfl).1,
    (init_center_error_characterized.1 demoDownDb "I9999" rfl).2⟩,
   ⟨rfl,
    (init_center_error_characterized.2 demoDownDb "I0001" 1 rfl).1,
    (init_center_error_characterized.2 demoDownDb "I0001" 1 rfl).2⟩⟩

theorem escapeChars_append (u v : List Char) :
    escapeChars (u ++ v) = escapeChars u ++ escapeChars v := by
  induction u with
  | nil => rfl
  | cons c u ih => simp [escapeChars, ih]

theorem escapeRepl_of_not_special (c : Char) (hc : c ∉ latexSpecials) :
    escapeRepl c = [c] := by
  simp only [latexSpecials, List.mem_cons, List.not_mem_nil, or_false,
    not_or] at hc
  obtain ⟨h1, h2, h3, h4, h5, h6, h7, h8, h9, h10⟩ := hc
  simp [escapeRepl, h1, h2, h3, h4, h5, h6, h7, h8, h9, h10]

theorem escapeChars_of_clean (l : List Char)
    (h : ∀ c ∈ l, c ∉ latexSpecials) : escapeChars l = l := by
  induction l with
  | nil => rfl
  | cons c l ih =>
      simp only [escapeChars]
      rw [escapeRepl_of_not_special c (h c (List.mem_cons_self c l)),
        ih (fun x hx => h x (List.mem_cons_of_mem c hx))]
      rfl

/-- C8: `latex_helper.escape` replaces each occurrence of each of the
ten LaTeX special characters with its escape sequence from the lookup
table and leaves every other character unchanged: it distributes over
concatenation, sends a special character to its table entry and any
other single character to itself, and is the identity on every string
containing none of the ten special characters. -/
theorem escape_characterized :
    (∀ u v : List Char,
      escapeChars (u ++ v) = escapeChars u ++ escapeChars v) ∧
    (∀ c : Char, c ∈ latexSpecials → escapeChars [c] = escapeRepl c) ∧
    (∀ c : Char, c ∉ latexSpecials → escapeChars [c] = [c]) ∧
    (∀ s : String, (∀ c ∈ s.data, c ∉ latexSpecials) → escape s = s) := by
  refine ⟨escapeChars_append, ?_, ?_, ?_⟩
  · intro c _
    simp [escapeChars]
  · intro c hc
    simp [escapeChars, escapeRepl_of_not_special c hc]
  · intro s hs
    unfold escape
    rw [escapeChars_of_clean s.data hs]

theorem escape_characterized_witness :
    escapeChars ("a%b".data ++ "c_d".data)
        = escapeChars "a%b".data ++ escapeChars "c_d".data ∧
    ('%' ∈ latexSpecials ∧ escapeChars ['%'] = escapeRepl '%') ∧
    ('x' ∉ latexSpecials ∧ escapeChars ['x'] = ['x']) ∧
    ((∀ c ∈ ("Mueller" : String).data, c ∉ latexSpecials) ∧
      escape "Mueller" = "Mueller") :=
  ⟨escape_characterized.1 "a%b".data "c_d".data,
   ⟨by decide, escape_characterized.2.1 '%' (by decide)⟩,
   ⟨by decide, escape_characterized.2.2.1 'x' (by decide)⟩,
   ⟨by decide, escape_characterized.2.2.2 "Mueller" (by decide)⟩⟩

/-- The eight transliterated characters of `get_latex_id`'s `umlaute`
table. -/
def umlautChars : List Char := ['ö', 'ä', 'ü', 'Ä', 'Ö', 'Ü', 'ß', 'æ']

/-- The per-character effect of `get_latex_id`'s cleanup pipeline:
spaces are removed and each `umlaute` character becomes its
transliteration; every other character is kept. -/
def idTranslit (c : Char) : List Char :=
  if c = ' ' then []
  else if c = 'ö' then ['o', 'e']
  else if c = 'ä' then ['a', 'e']
  else if c = 'ü' then ['u', 'e']
  else if c = 'Ä' then ['A', 'E']
  else if c = 'Ö' then ['O', 'E']
  else if c = 'Ü' then ['U', 'E']
  else if c = 'ß' then ['s', 's']
  else if c = 'æ' then ['a', 'e']
  else [c]

theorem strReplaceChar_append (a b : List Char) (old : Char)
    (new : List Char) :
    strReplaceChar (a ++ b) old new
      = strReplaceChar a old new ++ strReplaceChar b old new := by
  simp [strReplaceChar]

theorem applyUmlautTable_append (a b : List Char) :
    applyUmlautTable (a ++ b)
      = applyUmlautTable a ++ applyUmlautTable b := by
  simp [applyUmlautTable, umlautTable, strReplaceChar_append]

theorem applyUmlautTable_single (c : Char) (hs : c ≠ ' ') :
    applyUmlautTable [c] = idTranslit c := by
  by_cases h1 : c = 'ö'
  · subst h1; decide
  by_cases h2 : c = 'ä'
  · subst h2; decide
  by_cases h3 : c = 'ü'
  · subst h3; decide
  by_cases h4 : c = 'Ä'
  · subst h4; decide
  by_cases h5 : c = 'Ö'
  · subst h5; decide
  by_cases h6 : c = 'Ü'
  · subst h6; decide
  by_cases h7 : c = 'ß'
  · subst h7; decide
  by_cases h8 : c = 'æ'
  · subst h8; decide
  simp [applyUmlautTable, umlautTable, strReplaceChar, idTranslit,
    hs, h1, h2, h3, h4, h5, h6, h7, h8]

theorem applyUmlautTable_spaceRemoved (l : List Char) :
    applyUmlautTable (strReplaceChar l ' ' [])
      = (l.map idTranslit).flatten := by
  induction l with
  | nil => rfl
  | cons c l ih =>
      have hcons : strReplaceChar (c :: l) ' ' []
          = (if c = ' ' then [] else [c]) ++ strReplaceChar l ' ' [] := by
        simp [strReplaceChar]
      rw [hcons, applyUmlautTable_append, ih]
      simp only [List.map_cons, List.flatten_cons]
      by_cases hs : c = ' '
      · subst hs
        rw [if_pos rfl]
        rw [show applyUmlautTable [] = [] from rfl]
        rw [show idTranslit ' ' = [] from rfl]
      · rw [if_neg hs, applyUmlautTable_single c hs]

theorem idTranslit_output (c0 c : Char) (h : c ∈ idTranslit c0) :
    c ≠ ' ' ∧ c ∉ umlautChars := by
  unfold idTranslit at h
  by_cases h0 : c0 = ' '
  · simp [h0] at h
  rw [if_neg h0] at h
  by_cases h1 : c0 = 'ö'
  · rw [if_pos h1] at h
    rcases List.mem_cons.mp h with he | he
    · subst he; decide
    · simp at he; subst he; decide
  rw [if_neg h1] at h
  by_cases h2 : c0 = 'ä'
  · rw [if_pos h2] at h
    rcases List.mem_cons.mp h with he | he
    · subst he; decide
    · simp at he; subst he; decide
  rw [if_neg h2] at h
  by_cases h3 : c0 = 'ü'
  · rw [if_pos h3] at h
    rcases List.mem_cons.mp h with he | he
    · subst he; decide
    · simp at he; subst he; decide
  rw [if_neg h3] at h
  by_cases h4 : c0 = 'Ä'
  · rw [if_pos h4] at h
    rcases List.mem_cons.mp h with he | he
    · subst he; decide
    · simp at he; subst he; decide
  rw [if_neg h4] at h
  by_cases h5 : c0 = 'Ö'
  · rw [if_pos h5] at h
    rcases List.mem_cons.mp h with he | he
    · subst he; decide
    · simp at he; subst he; decide
  rw [if_neg h5] at h
  by_cases h6 : c0 = 'Ü'
  · rw [if_pos h6] at h
    rcases List.mem_cons.mp h with he | he
    · subst he; decide
    · simp at he; subst he; decide
  rw [if_neg h6] at h
  by_cases h7 : c0 = 'ß'
  · rw [if_pos h7] at h
    rcases List.mem_cons.mp h with he | he
    · subst he; decide
    · simp at he; subst he; decide
  rw [if_neg h7] at h
  by_cases h8 : c0 = 'æ'
  · rw [if_pos h8] at h
    rcases List.mem_cons.mp h with he | he
    · subst he; decide
    · simp at he; subst he; decide
  rw [if_neg h8] at h
  simp at h
  subst h
  refine ⟨h0, ?_⟩
  simp [umlautChars, h1, h2, h3, h4, h5, h6, h7, h8]

theorem flatten_map_translit_id (l : List Char)
    (h : ∀ c ∈ l, idTranslit c = [c]) :
    (l.map idTranslit).flatten = l := by
  induction l with
  | nil => rfl
  | cons c l ih =>
      simp only [List.map_cons, List.flatten_cons]
      rw [h c (List.mem_cons_self c l),
        ih (fun x hx => h x (List.mem_cons_of_mem c hx))]
      rfl

/-- C9: `latex_helper.get_latex_id` returns the concatenation of the
person's first surname, given name, suffix and Gramps ID, transformed
character by character: every space is removed and every occurrence of
ö, ä, ü, Ä, Ö, Ü, ß, æ is transliterated to oe, ae, ue, AE, OE, UE, ss,
ae respectively (`idTranslit`); consequently the returned identifier
never contains a space or any of those eight characters, and on a
concatenation already free of them `get_latex_id` is the
concatenation itself. -/
theorem get_latex_id_characterized :
    (∀ person : GPerson,
      get_latex_id person
        = ⟨((get_nachname person ++ person.primary_name.first_name
            ++ person.primary_name.suffix
            ++ person.gramps_id).data.map idTranslit).flatten⟩) ∧
    (∀ person : GPerson, ∀ c ∈ (get_latex_id person).data,
      c ≠ ' ' ∧ c ∉ umlautChars) ∧
    (∀ person : GPerson,
      (∀ c ∈ (get_nachname person ++ person.primary_name.first_name
          ++ person.primary_name.suffix ++ person.gramps_id).data,
        c ≠ ' ' ∧ c ∉ umlautChars) →
      get_latex_id person
        = get_nachname person ++ person.primary_name.first_name
            ++ person.primary_name.suffix ++ person.gramps_id) := by
  have hmain : ∀ person : GPerson,
      get_latex_id person
        = ⟨((get_nachname person ++ person.primary_name.first_name
            ++ person.primary_name.suffix
            ++ person.gramps_id).data.map idTranslit).flatten⟩ := by
    intro person
    have hunfold : get_latex_id person
        = ⟨applyUmlautTable (strReplaceChar (get_nachname person
            ++ person.primary_name.first_name
            ++ person.primary_name.suffix
            ++ person.gramps_id).data ' ' [])⟩ := rfl
    exact hunfold.trans
      (congrArg String.mk (applyUmlautTable_spaceRemoved _))
  refine ⟨hmain, ?_, ?_⟩
  · intro person c hc
    rw [hmain person] at hc
    have hc2 : c ∈ ((get_nachname person
        ++ person.primary_name.first_name
        ++ person.primary_name.suffix
        ++ person.gramps_id).data.map idTranslit).flatten := hc
    rw [List.mem_flatten] at hc2
    obtain ⟨L, hL, hcL⟩ := hc2
    rw [List.mem_map] at hL
    obtain ⟨c0, _, hc0⟩ := hL
    exact idTranslit_output c0 c (hc0 ▸ hcL)
  · intro person hclean
    have hid : ∀ c ∈ (get_nachname person
        ++ person.primary_name.first_name
        ++ person.primary_name.suffix
        ++ person.gramps_id).data, idTranslit c = [c] := by
      intro c hc
      obtain ⟨hs, hu⟩ := hclean c hc
      simp only [umlautChars, List.mem_cons, List.not_mem_nil,
        or_false, not_or] at hu
      obtain ⟨h1, h2, h3, h4, h5, h6, h7, h8⟩ := hu
      simp [idTranslit, hs, h1, h2, h3, h4, h5, h6, h7, h8]
    exact (hmain person).trans
      ((congrArg String.mk (flatten_map_translit_id _ hid)).trans rfl)

/-- A person whose name fields contain spaces and umlauts. -/
def demoUmlautPerson : GPerson :=
  ⟨7, "I0æ01", ⟨"Anna ß", "", [⟨"Müller Ö"⟩]⟩, [], none, none, none⟩

/-- A person whose name fields are free of spaces and umlauts. -/
def demoCleanPerson : GPerson :=
  ⟨8, "I0002", ⟨"Hans", "", [⟨"Meier"⟩]⟩, [], none, none, none⟩

theorem get_latex_id_characterized_witness :
    get_latex_id demoUmlautPerson
      = ⟨((get_nachname demoUmlautPerson
          ++ demoUmlautPerson.primary_name.first_name
          ++ demoUmlautPerson.primary_name.suffix
          ++ demoUmlautPerson.gramps_id).data.map idTranslit).flatten⟩ ∧
    ('M' ∈ (get_latex_id demoUmlautPerson).data ∧
      ('M' ≠ ' ' ∧ 'M' ∉ umlautChars)) ∧
    ((∀ c ∈ (get_nachname demoCleanPerson
        ++ demoCleanPerson.primary_name.first_name
        ++ demoCleanPerson.primary_name.suffix
        ++ demoCleanPerson.gramps_id).data,
      c ≠ ' ' ∧ c ∉ umlautChars) ∧
      get_latex_id demoCleanPerson
        = get_nachname demoCleanPerson
            ++ demoCleanPerson.primary_name.first_name
            ++ demoCleanPerson.primary_name.suffix
            ++ demoCleanPerson.gramps_id) :=
  ⟨get_latex_id_characterized.1 demoUmlautPerson,
   ⟨by decide,
    get_latex_id_characterized.2.1 demoUmlautPerson 'M' (by decide)⟩,
   ⟨by decide,
    get_latex_id_characterized.2.2 demoCleanPerson (by decide)⟩⟩

/- ----------------------------------------------------------------- -/
/- IsDescendantFamilyOfInLessThanNthGeneration (claim C3)            -/
/- ----------------------------------------------------------------- -/

/-- Python `set.add`: append unless present. -/
def pySetAdd {α : Type} [DecidableEq α] (l : List α) (x : α) : List α :=
  if x ∈ l then l else l ++ [x]

/-- Python `set.remove`: remove the element, raising `KeyError` when it
is absent. -/
def pySetRemove {α : Type} [DecidableEq α] (l : List α) (x : α) :
    Except String (List α) :=
  if x ∈ l then Except.ok (l.erase x) else Except.error "KeyError"

/-- `IsDescendantFamilyOfInLessThanNthGeneration.add_matches`, by
recursion on remaining generations (`fuel`): skip persons already in
`matches`; otherwise add the person, and for each of its families add
the spouse (the mother when the person is the recorded father, the
father otherwise; possibly `None`), and recurse into the children
unless `gen >= max_gen`.  Families whose handle does not resolve
(`if family:`) are skipped.  `prepare` calls this with
`fuel = max_gen + 2`, which the `gen`-guard keeps from running out. -/
def add_matches (db : GDb) (maxGen : Nat) :
    Nat → Option Nat → Nat → List (Option Nat) → List (Option Nat)
  | 0, _, _, ms => ms
  | _ + 1, none, _, ms => ms
  | fuel + 1, some p, gen, ms =>
      if (some p) ∈ ms then ms
      else
        (getPerson db p).family_handle_list.foldl
          (fun acc fh =>
            match List.lookup fh db.families with
            | none => acc
            | some fam =>
                let spouse := if some p = fam.father_handle
                  then fam.mother_handle else fam.father_handle
                let acc1 := pySetAdd acc spouse
                if gen ≥ maxGen then acc1
                else fam.child_ref_list.foldl
                    (fun acc2 c =>
                      add_matches db maxGen fuel (some c) (gen + 1) acc2)
                    acc1)
          (ms ++ [some p])

/-- The spouse-removal loop of
`IsDescendantFamilyOfInLessThanNthGeneration.exclude_root_person`. -/
def remove_spouses (db : GDb) (root : Nat) :
    List Nat → List (Option Nat) → Except String (List (Option Nat))
  | [], m => Except.ok m
  | fh :: rest, m =>
      match List.lookup fh db.families with
      | none => remove_spouses db root rest m
      | some fam =>
          let spouse := if some root = fam.father_handle
            then fam.mother_handle else fam.father_handle
          match pySetRemove m spouse with
          | Except.error e => Except.error e
          | Except.ok m2 => remove_spouses db root rest m2

/-- `IsDescendantFamilyOfInLessThanNthGeneration.exclude_root_person`:
remove the root person and, for each of the root's families, the
selected spouse. -/
def exclude_root_person (db : GDb) (rootOpt : Option Nat)
    (m : List (Option Nat)) : Except String (List (Option Nat)) :=
  match rootOpt with
  | none => Except.ok m
  | some r =>
      match pySetRemove m (some r) with
      | Except.error e => Except.error e
      | Except.ok m1 =>
          remove_spouses db r (getPerson db r).family_handle_list m1

/-- `IsDescendantFamilyOfInLessThanNthGeneration.exclude_persons`:
remove the person of each excluded Gramps ID; an unresolvable ID makes
`person.handle` raise `AttributeError`. -/
def exclude_persons (db : GDb) :
    List String → List (Option Nat) → Except String (List (Option Nat))
  | [], m => Except.ok m
  | eid :: rest, m =>
      match personFromGrampsId db eid with
      | none => Except.error "AttributeError"
      | some h =>
          match pySetRemove m (some h) with
          | Except.error e => Except.error e
          | Except.ok m2 => exclude_persons db rest m2

/-- `IsDescendantFamilyOfInLessThanNthGeneration.prepare`: resolve the
root ID, run `add_matches(root_person, 0)`, then apply the Inclusive
and Exclude options (the parsed Inclusive flag is the `inclusive`
parameter; the comma-split Exclude list is the `excludes` parameter). -/
def rule_prepare (db : GDb) (rootId : String) (maxGen : Nat)
    (inclusive : Bool) (excludes : List String) :
    Except String (List (Option Nat)) :=
  let root := personFromGrampsId db rootId
  let ms0 := add_matches db maxGen (maxGen + 2) root 0 []
  match (if inclusive then Except.ok ms0
         else exclude_root_person db root ms0) with
  | Except.error e => Except.error e
  | Except.ok m1 => exclude_persons db excludes m1

/-- `IsDescendantFamilyOfInLessThanNthGeneration.apply`:
`person.handle in self.matches`. -/
def rule_apply (ms : List (Option Nat)) (personHandle : Nat) :
    Bool :=
  decide ((some personHandle) ∈ ms)

/-- A descent path of exact length `g` from the root to a person,
through the root's family graph as the rule walks it
(`get_family_handle_list` and resolvable families only). -/
inductive DescAt (db : GDb) (root : Nat) : Nat → Nat → Prop where
  | base : DescAt db root 0 root
  | step {g p fh fam c} : DescAt db root g p →
      fh ∈ (getPerson db p).family_handle_list →
      List.lookup fh db.families = some fam →
      c ∈ fam.child_ref_list → DescAt db root (g + 1) c

/-- A descendant of the root not more than `n` generations away. -/
def DescWithin (db : GDb) (root n person : Nat) : Prop :=
  ∃ g, g ≤ n ∧ DescAt db root g person

/-- The spouse, as the rule selects it, of a descendant of the root not
more than `n` generations away. -/
def SpouseOfDesc (db : GDb) (root n s : Nat) : Prop :=
  ∃ p g fh fam, g ≤ n ∧ DescAt db root g p ∧
    fh ∈ (getPerson db p).family_handle_list ∧
    List.lookup fh db.families = some fam ∧
    ((if some p = fam.father_handle then fam.mother_handle
      else fam.father_handle) = some s)

/-- A matched entry is the root, a descendant within the bound, or the
spouse of such a descendant. -/
def GoodMatch (db : GDb) (root n : Nat) (x : Option Nat) : Prop :=
  ∀ h, x = some h →
    h = root ∨ DescWithin db root n h ∨ SpouseOfDesc db root n h

theorem foldl_preserve {α β : Type} (P : β → Prop) (l : List α)
    (f : β → α → β)
    (hstep : ∀ b a, a ∈ l → P b → P (f b a)) :
    ∀ init, P init → P (l.foldl f init) := by
  induction l with
  | nil => intro init h; exact h
  | cons a l ih =>
      intro init h
      simp only [List.foldl_cons]
      exact ih
        (fun b x hx hb => hstep b x (List.mem_cons_of_mem a hx) hb)
        (f init a) (hstep init a (List.mem_cons_self a l) h)

theorem pySetAdd_mem {α : Type} [DecidableEq α] (l : List α) (x y : α)
    (h : y ∈ pySetAdd l x) : y ∈ l ∨ y = x := by
  unfold pySetAdd at h
  by_cases hx : x ∈ l
  · rw [if_pos hx] at h; exact Or.inl h
  · rw [if_neg hx] at h
    rcases List.mem_append.mp h with h2 | h2
    · exact Or.inl h2
    · simp at h2; exact Or.inr h2

theorem pySetAdd_nodup {α : Type} [DecidableEq α] (l : List α) (x : α)
    (h : l.Nodup) : (pySetAdd l x).Nodup := by
  unfold pySetAdd
  by_cases hx : x ∈ l
  · rw [if_pos hx]; exact h
  · rw [if_neg hx]
    rw [List.nodup_append]
    exact ⟨h, List.nodup_singleton x, by simpa using hx⟩

theorem add_matches_inv (db : GDb) (root maxGen : Nat) :
    ∀ (fuel : Nat) (pop : Option Nat) (gen : Nat)
      (m : List (Option Nat)),
    gen ≤ maxGen →
    (∀ h, pop = some h → DescAt db root gen h) →
    (∀ x ∈ m, GoodMatch db root maxGen x) → m.Nodup →
    (∀ x ∈ add_matches db maxGen fuel pop gen m,
      GoodMatch db root maxGen x)
      ∧ (add_matches db maxGen fuel pop gen m).Nodup := by
  intro fuel
  induction fuel with
  | zero =>
      intro pop gen m _ _ hg hn
      exact ⟨hg, hn⟩
  | succ fuel ih =>
      intro pop gen m hgen hpop hg hn
      cases pop with
      | none => exact ⟨hg, hn⟩
      | some p =>
          by_cases hmem : (some p) ∈ m
          · simp only [add_matches, if_pos hmem]
            exact ⟨hg, hn⟩
          · simp only [add_matches, if_neg hmem]
            have hdesc : DescAt db root gen p := hpop p rfl
            have hinit :
                (∀ x ∈ m ++ [some p], GoodMatch db root maxGen x)
                  ∧ (m ++ [some p]).Nodup := by
              constructor
              · intro x hx
                rcases List.mem_append.mp hx with hx | hx
                · exact hg x hx
                · simp at hx
                  subst hx
                  intro h he
                  injection he with he
                  subst he
                  exact Or.inr (Or.inl ⟨gen, hgen, hdesc⟩)
              · rw [List.nodup_append]
                exact ⟨hn, List.nodup_singleton _, by simpa using hmem⟩
            refine foldl_preserve
              (fun m' => (∀ x ∈ m', GoodMatch db root maxGen x)
                ∧ m'.Nodup) _ _ ?_ _ hinit
            intro b fh hfh hb
            cases hlk : List.lookup fh db.families with
            | none => simpa [hlk] using hb
            | some fam =>
                simp only [hlk]
                have hacc1 :
                    (∀ x ∈ pySetAdd b (if some p = fam.father_handle
                        then fam.mother_handle else fam.father_handle),
                      GoodMatch db root maxGen x)
                      ∧ (pySetAdd b (if some p = fam.father_handle
                        then fam.mother_handle
                        else fam.father_handle)).Nodup := by
                  constructor
                  · intro x hx
                    rcases pySetAdd_mem _ _ _ hx with hx2 | hx2
                    · exact hb.1 x hx2
                    · subst hx2
                      intro h he
                      exact Or.inr (Or.inr
                        ⟨p, gen, fh, fam, hgen, hdesc, hfh, hlk, he⟩)
                  · exact pySetAdd_nodup _ _ hb.2
                by_cases hcut : gen ≥ maxGen
                · simpa [hcut] using hacc1
                · simp only [if_neg hcut]
                  refine foldl_preserve
                    (fun m' => (∀ x ∈ m', GoodMatch db root maxGen x)
                      ∧ m'.Nodup) _ _ ?_ _ hacc1
                  intro b2 c hc hb2
                  exact ih (some c) (gen + 1) b2 (by omega)
                    (fun h he => by
                      injection he with he
                      subst he
                      exact DescAt.step hdesc hfh hlk hc)
                    hb2.1 hb2.2

theorem pySetRemove_ok_spec {α : Type} [DecidableEq α]
    (l m2 : List α) (x : α) (hn : l.Nodup)
    (h : pySetRemove l x = Except.ok m2) :
    m2.Nodup ∧ (∀ y ∈ m2, y ∈ l) ∧ x ∉ m2 := by
  unfold pySetRemove at h
  by_cases hx : x ∈ l
  · rw [if_pos hx] at h
    injection h with h
    subst h
    refine ⟨hn.erase x, fun y hy => List.mem_of_mem_erase hy, ?_⟩
    intro hc
    exact ((List.Nodup.mem_erase_iff hn).mp hc).1 rfl
  · rw [if_neg hx] at h
    cases h

theorem exclude_persons_spec (db : GDb) :
    ∀ (l : List String) (m ms : List (Option Nat)), m.Nodup →
      exclude_persons db l m = Except.ok ms →
      ms.Nodup ∧ (∀ x ∈ ms, x ∈ m) ∧
      (∀ eid ∈ l, ∀ h : Nat, personFromGrampsId db eid = some h →
        (some h : Option Nat) ∉ ms) := by
  intro l
  induction l with
  | nil =>
      intro m ms hn h
      simp only [exclude_persons] at h
      injection h with h
      subst h
      exact ⟨hn, fun x hx => hx, by simp⟩
  | cons eid rest ih =>
      intro m ms hn h
      simp only [exclude_persons] at h
      cases hres : personFromGrampsId db eid with
      | none => rw [hres] at h; cases h
      | some h0 =>
          rw [hres] at h
          dsimp only at h
          cases hrem : pySetRemove m (some h0) with
          | error e => rw [hrem] at h; cases h
          | ok m2 =>
              rw [hrem] at h
              dsimp only at h
              obtain ⟨hn2, hsub2, hnotin⟩ :=
                pySetRemove_ok_spec m m2 (some h0) hn hrem
              obtain ⟨hnms, hsub, hexc⟩ := ih m2 ms hn2 h
              refine ⟨hnms, fun x hx => hsub2 x (hsub x hx), ?_⟩
              intro eid2 hmem2 h2 hres2
              rcases List.mem_cons.mp hmem2 with he | he
              · subst he
                rw [hres] at hres2
                injection hres2 with hres2
                subst hres2
                intro hcontra
                exact hnotin (hsub _ hcontra)
              · exact hexc eid2 he h2 hres2

theorem remove_spouses_spec (db : GDb) (r : Nat) :
    ∀ (l : List Nat) (m ms : List (Option Nat)), m.Nodup →
      remove_spouses db r l m = Except.ok ms →
      ms.Nodup ∧ (∀ x ∈ ms, x ∈ m) ∧
      (∀ fh ∈ l, ∀ fam, List.lookup fh db.families = some fam →
        (if some r = fam.father_handle then fam.mother_handle
          else fam.father_handle) ∉ ms) := by
  intro l
  induction l with
  | nil =>
      intro m ms hn h
      simp only [remove_spouses] at h
      injection h with h
      subst h
      exact ⟨hn, fun x hx => hx, by simp⟩
  | cons fh rest ih =>
      intro m ms hn h
      simp only [remove_spouses] at h
      cases hlk : List.lookup fh db.families with
      | none =>
          rw [hlk] at h
          obtain ⟨hnms, hsub, hrest⟩ := ih m ms hn h
          refine ⟨hnms, hsub, ?_⟩
          intro fh2 hmem2 fam hlk2
          rcases List.mem_cons.mp hmem2 with he | he
          · subst he; rw [hlk] at hlk2; cases hlk2
          · exact hrest fh2 he fam hlk2
      | some fam =>
          rw [hlk] at h
          dsimp only at h
          cases hrem : pySetRemove m (if some r = fam.father_handle
              then fam.mother_handle else fam.father_handle) with
          | error e => rw [hrem] at h; cases h
          | ok m2 =>
              rw [hrem] at h
              dsimp only at h
              obtain ⟨hn2, hsub2, hnotin⟩ :=
                pySetRemove_ok_spec m m2 _ hn hrem
              obtain ⟨hnms, hsub, hrest⟩ := ih m2 ms hn2 h
              refine ⟨hnms, fun x hx => hsub2 x (hsub x hx), ?_⟩
              intro fh2 hmem2 fam2 hlk2
              rcases List.mem_cons.mp hmem2 with he | he
              · subst he
                rw [hlk] at hlk2
                injection hlk2 with hlk2
                subst hlk2
                intro hcontra
                exact hnotin (hsub _ hcontra)
              · exact hrest fh2 he fam2 hlk2

/-- C3 (amended): every person the rule's `apply` accepts is the root,
a descendant of the root not more than `max_gen` generations away, or
the spouse of such a descendant; with the Inclusive flag off the root
and the root's spouses are excluded, and every resolvable Gramps ID of
the Exclude list is excluded.  (The converse of the first clause fails:
`add_matches` expands each person only on its first visit, so a
descendant reachable only through an already-matched person — e.g. the
spouse in a cousin marriage — can be missed; see the counterexample.) -/
theorem rule_apply_sound (db : GDb) (rootId : String) (maxGen : Nat)
    (incl : Bool) (excludes : List String) (r : Nat)
    (ms : List (Option Nat))
    (hroot : personFromGrampsId db rootId = some r)
    (hprep : rule_prepare db rootId maxGen incl excludes
      = Except.ok ms) :
    (∀ h : Nat, rule_apply ms h = true →
      h = r ∨ DescWithin db r maxGen h ∨ SpouseOfDesc db r maxGen h) ∧
    (incl = false →
      rule_apply ms r = false ∧
      (∀ fh fam, fh ∈ (getPerson db r).family_handle_list →
        List.lookup fh db.families = some fam →
        ∀ s : Nat, (if some r = fam.father_handle
            then fam.mother_handle else fam.father_handle) = some s →
        rule_apply ms s = false)) ∧
    (∀ eid ∈ excludes, ∀ h : Nat,
      personFromGrampsId db eid = some h →
      rule_apply ms h = false) := by
  have hinv := add_matches_inv db r maxGen (maxGen + 2)
    (personFromGrampsId db rootId) 0 [] (by omega)
    (fun h he => by
      rw [hroot] at he
      injection he with he
      subst he
      exact DescAt.base)
    (by simp) (by simp)
  simp only [rule_prepare] at hprep
  set ms0 := add_matches db maxGen (maxGen + 2)
    (personFromGrampsId db rootId) 0 [] with hms0
  obtain ⟨hgood0, hnodup0⟩ := hinv
  cases incl with
  | true =>
      simp only [if_pos] at hprep
      obtain ⟨hnms, hsub, hexc⟩ :=
        exclude_persons_spec db excludes ms0 ms hnodup0 hprep
      refine ⟨?_, ?_, ?_⟩
      · intro h happ
        have hmem : (some h) ∈ ms := of_decide_eq_true happ
        exact hgood0 _ (hsub _ hmem) h rfl
      · intro hcontra; cases hcontra
      · intro eid hmem h hres
        have := hexc eid hmem h hres
        simpa [rule_apply] using this
  | false =>
      simp only [Bool.false_eq_true, if_neg] at hprep
      unfold exclude_root_person at hprep
      rw [hroot] at hprep
      dsimp only at hprep
      cases hrem : pySetRemove ms0 (some r) with
      | error e => rw [hrem] at hprep; cases hprep
      | ok mroot =>
          rw [hrem] at hprep
          dsimp only at hprep
          obtain ⟨hnroot, hsubroot, hrnotin⟩ :=
            pySetRemove_ok_spec ms0 mroot (some r) hnodup0 hrem
          cases hsp : remove_spouses db r
              (getPerson db r).family_handle_list mroot with
          | error e => rw [hsp] at hprep; cases hprep
          | ok m1 =>
              rw [hsp] at hprep
              obtain ⟨hn1, hsub1, hspouses⟩ :=
                remove_spouses_spec db r _ mroot m1 hnroot hsp
              obtain ⟨hnms, hsub, hexc⟩ :=
                exclude_persons_spec db excludes m1 ms hn1 hprep
              refine ⟨?_, ?_, ?_⟩
              · intro h happ
                have hmem : (some h) ∈ ms := of_decide_eq_true happ
                exact hgood0 _ (hsubroot _ (hsub1 _ (hsub _ hmem)))
                  h rfl
              · intro _
                constructor
                · have : (some r) ∉ ms := fun hc =>
                    hrnotin (hsub1 _ (hsub _ hc))
                  simpa [rule_apply] using this
                · intro fh fam hfh hlk s hsel
                  have hne : (if some r = fam.father_handle
                      then fam.mother_handle
                      else fam.father_handle) ∉ m1 :=
                    hspouses fh hfh fam hlk
                  rw [hsel] at hne
                  have : (some s) ∉ ms := fun hc => hne (hsub _ hc)
                  simpa [rule_apply] using this
              · intro eid hmem h hres
                have := hexc eid hmem h hres
                simpa [rule_apply] using this

/-- A database with a cousin-style marriage among descendants: root 0
and spouse 1 have children 2 and 3; 2 and 3 marry each other (family
41, child 4); 3 also has a family with the outsider 5 (family 42, child
6).  The DFS reaches 3 first as 2's spouse, so 3 is never expanded and
its child 6 is missed. -/
def demoRuleDb : GDb :=
  { persons :=
      [(0, ⟨0, "R", ⟨"", "", []⟩, [40], none, none, none⟩),
       (1, ⟨1, "S0", ⟨"", "", []⟩, [40], none, none, none⟩),
       (2, ⟨2, "A", ⟨"", "", []⟩, [41], some 40, none, none⟩),
       (3, ⟨3, "B", ⟨"", "", []⟩, [41, 42], some 40, none, none⟩),
       (4, ⟨4, "C", ⟨"", "", []⟩, [], some 41, none, none⟩),
       (5, ⟨5, "D", ⟨"", "", []⟩, [42], none, none, none⟩),
       (6, ⟨6, "E", ⟨"", "", []⟩, [], some 42, none, none⟩)]
    families := [(40, ⟨some 0, some 1, [2, 3]⟩),
                 (41, ⟨some 2, some 3, [4]⟩),
                 (42, ⟨some 3, some 5, [6]⟩)]
    events := []
    gramps_index := [("R", 0), ("S0", 1), ("A", 2), ("B", 3),
                     ("C", 4), ("D", 5), ("E", 6)]
    event_place_str := []
    date_span := fun _ _ => none }

/-- C3 counterexample: person 6 is a descendant of root 0 exactly two
generations away (well within `max_gen = 5`), is not anyone's spouse
and not excluded, yet `apply` returns `False` for it, because its
parent 3 had already been added as a spouse when the traversal reached
it, so 3's children were never visited.  The claim's "exactly when" is
therefore false as stated. -/
theorem rule_apply_incomplete_counterexample :
    rule_prepare demoRuleDb "R" 5 true []
      = Except.ok [some 0, some 1, some 2, some 3, some 4] ∧
    DescWithin demoRuleDb 0 5 6 ∧
    rule_apply [some 0, some 1, some 2, some 3, some 4] 6 = false := by
  refine ⟨rfl, ⟨2, by omega, ?_⟩, by decide⟩
  have h1 : DescAt demoRuleDb 0 1 3 :=
    @DescAt.step demoRuleDb 0 0 0 40 ⟨some 0, some 1, [2, 3]⟩ 3
      DescAt.base (by decide) rfl (by decide)
  exact @DescAt.step demoRuleDb 0 1 3 42 ⟨some 3, some 5, [6]⟩ 6
    h1 (by decide) rfl (by decide)

theorem rule_apply_sound_witness :
    (personFromGrampsId demoRuleDb "R" = some 0 ∧
      rule_prepare demoRuleDb "R" 5 false ["C"]
        = Except.ok [some 2, some 3]) ∧
    (rule_apply [some 2, some 3] 3 = true →
      3 = 0 ∨ DescWithin demoRuleDb 0 5 3 ∨
        SpouseOfDesc demoRuleDb 0 5 3) ∧
    (false = false →
      rule_apply [some 2, some 3] 0 = false ∧
      (∀ fh fam, fh ∈ (getPerson demoRuleDb 0).family_handle_list →
        List.lookup fh demoRuleDb.families = some fam →
        ∀ s : Nat, (if some 0 = fam.father_handle
            then fam.mother_handle else fam.father_handle) = some s →
        rule_apply [some 2, some 3] s = false)) ∧
    (∀ eid ∈ ["C"], ∀ h : Nat,
      personFromGrampsId demoRuleDb eid = some h →
      rule_apply [some 2, some 3] h = false) :=
  ⟨⟨rfl, rfl⟩,
    (rule_apply_sound demoRuleDb "R" 5 false ["C"] 0 [some 2, some 3]
      rfl rfl).1 3,
    (rule_apply_sound demoRuleDb "R" 5 false ["C"] 0 [some 2, some 3]
      rfl rfl).2.1,
    (rule_apply_sound demoRuleDb "R" 5 false ["C"] 0 [some 2, some 3]
      rfl rfl).2.2⟩

/- ----------------------------------------------------------------- -/
/- write_person duplicate handling (claim C6)                        -/
/- ----------------------------------------------------------------- -/

/-- An item the report emits: a full biography (the person's handle and
its number), a mate biography (`__write_mate`), or the ancestor
report's duplicate cross-reference line (its number and the number of
the first occurrence). -/
inductive EmitItem where
  | bio (handle : Nat) (kekule : String)
  | mateBio (kekule : String)
  | crossref (kekule : String) (target : String)
deriving DecidableEq, Repr

/-- The `alphabet` list of `LatexDownReport.write_person`. -/
def downAlphabet : List String :=
  ["a", "b", "c", "d", "e", "f", "g", "h"]

/-- The state `LatexDownReport.write_person` mutates:
`self.numbers_printed` and the output list. -/
structure DownEmit where
  numbers_printed : List String
  output : List EmitItem
deriving Repr

/-- `LatexDownReport.write_person`: look up the person and its assigned
number; return unchanged when the number was already printed, otherwise
record the number and emit the full biography followed by one mate
biography per family (numbered `val + alphabet[partner_nr]`) when mates
are included.  (On a well-formed run the key is in `self.map` and the
person in `self.dnumber`; the defaults stand for lookups Python would
never miss.) -/
def write_person_down (db : GDb) (incMates : Bool)
    (dnumber : List (Nat × String)) (map : List (Nat × Nat))
    (st : DownEmit) (key : Nat) : DownEmit :=
  let person_handle := (List.lookup key map).getD 0
  let val := (List.lookup person_handle dnumber).getD ""
  if val ∈ st.numbers_printed then st
  else
    let mates := if incMates then
        (getPerson db person_handle).family_handle_list.enum.map
          (fun ifh => EmitItem.mateBio (val ++ downAlphabet.getD ifh.1 ""))
      else []
    { numbers_printed := st.numbers_printed ++ [val]
      output := st.output ++ [EmitItem.bio person_handle val] ++ mates }

/-- The write loop of `LatexDownReport.write_report` over the keys it
visits (one pass over `gen_keys` in generation order, or over
`sorted(self.map)`), starting from a fresh `numbers_printed = []`. -/
def write_report_down_loop (db : GDb) (incMates : Bool)
    (dnumber : List (Nat × String)) (map : List (Nat × Nat))
    (keys : List Nat) : DownEmit :=
  keys.foldl (write_person_down db incMates dnumber map) ⟨[], []⟩

/-- The output state of the ancestor report's write loop. -/
structure UpEmit0 where
  output : List EmitItem
deriving Repr

/-- The keys of `self.map` in ascending order (`sorted(self.map)`). -/
def mapKeysSorted (map : List (Nat × Nat)) : List Nat :=
  List.insertionSort (· ≤ ·) (map.map Prod.fst)

/-- The letter suffix for the ancestor report's mates
(`chr(ord("a") + n)` for `0 ≤ n ≤ 25`, `""` otherwise). -/
def upLetter (n : Nat) : String :=
  if n ≤ 25 then String.singleton (Char.ofNat (97 + n)) else ""

/-- `LatexUpReport.write_person` as it affects the emitted output: with
`dupperson` set, scan the sorted map keys for a smaller key holding the
same person; at the first hit emit only a cross-reference to that first
occurrence and stop.  Otherwise emit the full biography, plus, for the
center person (key 1) with mates included, one mate biography per
family. -/
def write_person_up (db : GDb) (dupperson incMates : Bool)
    (initialSosa : Nat) (map : List (Nat × Nat)) (st : UpEmit0)
    (key : Nat) : UpEmit0 :=
  let person_handle := (List.lookup key map).getD 0
  let kek := toString (get_s_s initialSosa key)
  let dup := if dupperson then
      (mapKeysSorted map).find? (fun dk =>
        decide (dk < key) &&
          decide (List.lookup dk map = List.lookup key map))
    else none
  match dup with
  | some dk =>
      { output := st.output ++
          [EmitItem.crossref kek (toString (get_s_s initialSosa dk))] }
  | none =>
      let mates := if key = 1 ∧ incMates then
          (getPerson db person_handle).family_handle_list.enum.map
            (fun ifh => EmitItem.mateBio (kek ++ upLetter ifh.1))
        else []
      { output := st.output ++ [EmitItem.bio person_handle kek]
          ++ mates }

/-- The write loop of `LatexUpReport.write_report`:
`for key in sorted(self.map)`. -/
def write_report_up_loop (db : GDb) (dupperson incMates : Bool)
    (initialSosa : Nat) (map : List (Nat × Nat)) : UpEmit0 :=
  (mapKeysSorted map).foldl
    (write_person_up db dupperson incMates initialSosa map) ⟨[]⟩

/-- Is this item a full biography carrying number `n`? -/
def isBioWith (n : String) : EmitItem → Bool
  | EmitItem.bio _ k => k == n
  | _ => false

/-- How many full biographies with number `n` the output contains. -/
def countBioWith (out : List EmitItem) (n : String) : Nat :=
  (out.filter (isBioWith n)).length

/-- Is this item a full biography of person `h`? -/
def isBioOf (h : Nat) : EmitItem → Bool
  | EmitItem.bio h2 _ => h2 == h
  | _ => false

/-- How many full biographies of person `h` the output contains. -/
def countBioOf (out : List EmitItem) (h : Nat) : Nat :=
  (out.filter (isBioOf h)).length

theorem countBioWith_append (a b : List EmitItem) (n : String) :
    countBioWith (a ++ b) n = countBioWith a n + countBioWith b n := by
  simp [countBioWith]

theorem countBioOf_append (a b : List EmitItem) (h : Nat) :
    countBioOf (a ++ b) h = countBioOf a h + countBioOf b h := by
  simp [countBioOf]

theorem countBioWith_mates {α : Type} (l : List α) (f : α → String)
    (n : String) :
    countBioWith (l.map (fun x => EmitItem.mateBio (f x))) n = 0 := by
  induction l with
  | nil => rfl
  | cons a l ih => simpa [countBioWith, isBioWith] using ih

theorem countBioOf_mates {α : Type} (l : List α) (f : α → String)
    (h : Nat) :
    countBioOf (l.map (fun x => EmitItem.mateBio (f x))) h = 0 := by
  induction l with
  | nil => rfl
  | cons a l ih => simpa [countBioOf, isBioOf] using ih

theorem down_loop_inv (db : GDb) (incMates : Bool)
    (dnumber : List (Nat × String)) (map : List (Nat × Nat)) :
    ∀ (keys : List Nat) (st : DownEmit),
      (∀ n, countBioWith st.output n ≤ 1 ∧
        (1 ≤ countBioWith st.output n → n ∈ st.numbers_printed)) →
      ∀ n, countBioWith
          ((keys.foldl (write_person_down db incMates dnumber map)
            st).output) n ≤ 1 := by
  intro keys
  induction keys with
  | nil => intro st hst n; exact (hst n).1
  | cons k keys ih =>
      intro st hst n
      simp only [List.foldl_cons]
      apply ih
      intro n2
      unfold write_person_down
      set val := (List.lookup ((List.lookup k map).getD 0) dnumber).getD
        "" with hval
      by_cases hmem : val ∈ st.numbers_printed
      · rw [if_pos hmem]
        exact hst n2
      · rw [if_neg hmem]
        dsimp only
        rw [countBioWith_append, countBioWith_append]
        have hmates : countBioWith (if incMates then
            ((getPerson db ((List.lookup k map).getD 0)
              ).family_handle_list.enum.map
              (fun ifh => EmitItem.mateBio
                (val ++ downAlphabet.getD ifh.1 "")))
            else []) n2 = 0 := by
          by_cases hic : incMates
          · rw [if_pos hic]; exact countBioWith_mates _ _ n2
          · rw [if_neg hic]; rfl
        rw [hmates]
        rw [← hval]
        by_cases hn2 : val = n2
        · subst hn2
          have hzero : countBioWith st.output val = 0 := by
            by_contra hc
            exact hmem ((hst val).2 (by omega))
          have hone : countBioWith [EmitItem.bio
              ((List.lookup k map).getD 0) val] val = 1 := by
            simp [countBioWith, isBioWith]
          constructor
          · omega
          · intro _
            exact List.mem_append.mpr (Or.inr (by simp))
        · have hzero : countBioWith [EmitItem.bio
              ((List.lookup k map).getD 0) val] n2 = 0 := by
            simp [countBioWith, isBioWith, hn2]
          rw [hzero]
          constructor
          · have := (hst n2).1; omega
          · intro hge
            exact List.mem_append.mpr (Or.inl ((hst n2).2 (by omega)))

theorem lookup_of_mem_keys {β : Type} (l : List (Nat × β)) (k : Nat)
    (h : k ∈ l.map Prod.fst) : ∃ v, List.lookup k l = some v := by
  induction l with
  | nil => simp at h
  | cons p rest ih =>
      by_cases hk : k = p.1
      · exact ⟨p.2, by simp [List.lookup, hk]⟩
      · have hmem : k ∈ rest.map Prod.fst := by
          simp only [List.map_cons, List.mem_cons] at h
          tauto
        obtain ⟨v, hv⟩ := ih hmem
        have hb : (k == p.1) = false := beq_eq_false_iff_ne.mpr hk
        exact ⟨v, by simp [List.lookup, hb, hv]⟩

theorem countBioOf_crossref (a b : String) (h : Nat) :
    countBioOf [EmitItem.crossref a b] h = 0 := by
  simp [countBioOf, isBioOf]

theorem mapKeysSorted_sorted_lt (map : List (Nat × Nat))
    (hn : (map.map Prod.fst).Nodup) :
    List.Sorted (· < ·) (mapKeysSorted map) := by
  have hperm := List.perm_insertionSort (fun a b : Nat => a ≤ b)
    (map.map Prod.fst)
  have hsorted : List.Sorted (fun a b : Nat => a ≤ b)
      (mapKeysSorted map) := List.sorted_insertionSort _ _
  have hnodup : (mapKeysSorted map).Nodup :=
    (List.Perm.nodup_iff hperm).mpr hn
  exact List.Pairwise.imp₂ (fun a b hle hne => lt_of_le_of_ne hle hne)
    hsorted hnodup

theorem up_loop_inv (db : GDb) (incMates : Bool) (initialSosa : Nat)
    (map : List (Nat × Nat)) :
    ∀ (L : List Nat) (st : UpEmit0),
      List.Sorted (· < ·) L →
      (∀ k ∈ L, k ∈ mapKeysSorted map) →
      (∀ h : Nat, countBioOf st.output h ≤ 1 ∧
        (1 ≤ countBioOf st.output h →
          ∃ k0, k0 ∈ mapKeysSorted map ∧ (∀ k ∈ L, k0 < k) ∧
            List.lookup k0 map = some h)) →
      ∀ h : Nat, countBioOf
          ((L.foldl (write_person_up db true incMates initialSosa map)
            st).output) h ≤ 1 := by
  intro L
  induction L with
  | nil => intro st _ _ hst h; exact (hst h).1
  | cons k L ih =>
      intro st hsort hkeys hst h
      obtain ⟨hkL, hsortL⟩ := List.sorted_cons.mp hsort
      simp only [List.foldl_cons]
      apply ih _ hsortL (fun k2 hk2 => hkeys k2 (List.mem_cons_of_mem k hk2))
      intro h2
      unfold write_person_up
      simp only [if_pos]
      cases hf : (mapKeysSorted map).find? (fun dk =>
          decide (dk < k) &&
            decide (List.lookup dk map = List.lookup k map)) with
      | some dk =>
          dsimp only
          rw [countBioOf_append, countBioOf_crossref]
          constructor
          · have := (hst h2).1; omega
          · intro hge
            obtain ⟨k0, hk0m, hk0lt, hk0lk⟩ := (hst h2).2 (by omega)
            exact ⟨k0, hk0m,
              fun k2 hk2 => hk0lt k2 (List.mem_cons_of_mem k hk2),
              hk0lk⟩
      | none =>
          dsimp only
          obtain ⟨hk, hv⟩ := lookup_of_mem_keys map k
            (by
              have := hkeys k (List.mem_cons_self k L)
              have hperm := List.perm_insertionSort
                (fun a b : Nat => a ≤ b) (map.map Prod.fst)
              exact (List.Perm.mem_iff hperm).mp this)
          rw [countBioOf_append, countBioOf_append]
          have hmates : countBioOf (if k = 1 ∧ incMates then
              ((getPerson db ((List.lookup k map).getD 0)
                ).family_handle_list.enum.map
                (fun ifh => EmitItem.mateBio
                  (toString (get_s_s initialSosa k) ++ upLetter ifh.1)))
              else []) h2 = 0 := by
            by_cases hic : k = 1 ∧ incMates
            · rw [if_pos hic]; exact countBioOf_mates _ _ h2
            · rw [if_neg hic]; rfl
          rw [hmates]
          by_cases hh : ((List.lookup k map).getD 0) = h2
          · have hzero : countBioOf st.output h2 = 0 := by
              by_contra hc
              obtain ⟨k0, hk0m, hk0lt, hk0lk⟩ := (hst h2).2 (by omega)
              have hnone := List.find?_eq_none.mp hf k0 hk0m
              apply hnone
              rw [Bool.and_eq_true, decide_eq_true_iff,
                decide_eq_true_iff]
              refine ⟨hk0lt k (List.mem_cons_self k L), ?_⟩
              rw [hk0lk, hv]
              rw [hv] at hh
              simpa using hh.symm
            have hone : countBioOf [EmitItem.bio
                ((List.lookup k map).getD 0)
                (toString (get_s_s initialSosa k))] h2 = 1 := by
              simp [countBioOf, isBioOf, hh]
            constructor
            · omega
            · intro _
              refine ⟨k, hkeys k (List.mem_cons_self k L), hkL, ?_⟩
              rw [hv]
              rw [hv] at hh
              simpa using hh
          · have hzero : countBioOf [EmitItem.bio
                ((List.lookup k map).getD 0)
                (toString (get_s_s initialSosa k))] h2 = 0 := by
              simp [countBioOf, isBioOf, hh]
            rw [hzero]
            constructor
            · have := (hst h2).1; omega
            · intro hge
              obtain ⟨k0, hk0m, hk0lt, hk0lk⟩ := (hst h2).2 (by omega)
              exact ⟨k0, hk0m,
                fun k2 hk2 => hk0lt k2 (List.mem_cons_of_mem k hk2),
                hk0lk⟩

/-- C6 (amended): in the descendant report a full biography is emitted
at most once per assigned number — `write_person` returns without
emitting anything when the person's number is already in
`numbers_printed`; in the ancestor report, when the omit-duplicates
option (`dupperson`) is enabled, a person gets at most one full
biography over the whole run, and a person whose duplicate check hits a
smaller Sosa key is emitted only as a cross-reference line carrying the
first occurrence's Sosa number (the scan of the ascending key list
returns the smallest such key).  Without `dupperson` the ancestor
report does emit second full biographies (see the counterexample). -/
theorem write_person_duplicate_handling :
    (∀ (db : GDb) (incMates : Bool) (dnumber : List (Nat × String))
        (map : List (Nat × Nat)) (keys : List Nat) (n : String),
      countBioWith ((write_report_down_loop db incMates dnumber map
        keys).output) n ≤ 1) ∧
    (∀ (db : GDb) (incMates : Bool) (initialSosa : Nat)
        (map : List (Nat × Nat)), (map.map Prod.fst).Nodup →
      ∀ h : Nat, countBioOf ((write_report_up_loop db true incMates
        initialSosa map).output) h ≤ 1) ∧
    (∀ (db : GDb) (incMates : Bool) (initialSosa : Nat)
        (map : List (Nat × Nat)) (st : UpEmit0) (key dk : Nat),
      (mapKeysSorted map).find? (fun dk2 =>
        decide (dk2 < key) &&
          decide (List.lookup dk2 map = List.lookup key map))
        = some dk →
      (write_person_up db true incMates initialSosa map st key).output
        = st.output ++ [EmitItem.crossref
            (toString (get_s_s initialSosa key))
            (toString (get_s_s initialSosa dk))]) := by
  refine ⟨?_, ?_, ?_⟩
  · intro db incMates dnumber map keys n
    exact down_loop_inv db incMates dnumber map keys ⟨[], []⟩
      (fun n2 => ⟨by simp [countBioWith], by simp [countBioWith]⟩) n
  · intro db incMates initialSosa map hn h
    exact up_loop_inv db incMates initialSosa map (mapKeysSorted map)
      ⟨[]⟩ (mapKeysSorted_sorted_lt map hn) (fun k hk => hk)
      (fun h2 => ⟨by simp [countBioOf], by simp [countBioOf]⟩) h
  · intro db incMates initialSosa map st key dk hf
    unfold write_person_up
    simp only [if_pos, hf]

/-- An ancestor database where the same person 2 is both the father of
the center person 1 (family 20) and the father of the center's mother 3
(family 22), so person 2 occupies Sosa indices 2 and 6. -/
def demoUpDupDb : GDb :=
  { persons :=
      [(1, ⟨1, "I0001", ⟨"", "", []⟩, [], some 20, none, none⟩),
       (2, ⟨2, "I0002", ⟨"", "", []⟩, [20, 22], none, none, none⟩),
       (3, ⟨3, "I0003", ⟨"", "", []⟩, [20], some 22, none, none⟩),
       (4, ⟨4, "I0004", ⟨"", "", []⟩, [22], none, none, none⟩)]
    families := [(20, ⟨some 2, some 3, [1]⟩),
                 (22, ⟨some 2, some 4, [3]⟩)]
    events := []
    gramps_index := [("I0001", 1)]
    event_place_str := []
    date_span := fun _ _ => none }

/-- C6 counterexample: person 2 appears at Sosa indices 2 and 6 of
`demoUpDupDb`'s ancestor traversal; with the omit-duplicates option
off, the ancestor write loop emits a full biography for person 2 twice,
while the claim states a duplicate person is never emitted as a second
full biography. -/
theorem up_second_full_bio_counterexample :
    List.lookup 2 (apply_filter demoUpDupDb 3 1) = some 2 ∧
    List.lookup 6 (apply_filter demoUpDupDb 3 1) = some 2 ∧
    countBioOf (write_report_up_loop demoUpDupDb false false 1
      (apply_filter demoUpDupDb 3 1)).output 2 = 2 :=
  ⟨rfl, rfl, rfl⟩

theorem write_person_duplicate_handling_witness :
    countBioWith ((write_report_down_loop demoDownDb true
        (apply_henry_filter demoDownDb 3 1 1 "1").dnumber
        (apply_henry_filter demoDownDb 3 1 1 "1").map
        [1, 3, 4, 5, 5]).output) "111" ≤ 1 ∧
    (((apply_filter demoUpDupDb 3 1).map Prod.fst).Nodup ∧
      countBioOf ((write_report_up_loop demoUpDupDb true false 1
        (apply_filter demoUpDupDb 3 1)).output) 2 ≤ 1) ∧
    ((mapKeysSorted (apply_filter demoUpDupDb 3 1)).find? (fun dk2 =>
        decide (dk2 < 6) &&
          decide (List.lookup dk2 (apply_filter demoUpDupDb 3 1)
            = List.lookup 6 (apply_filter demoUpDupDb 3 1)))
        = some 2 ∧
      (write_person_up demoUpDupDb true false 1
          (apply_filter demoUpDupDb 3 1) ⟨[]⟩ 6).output
        = [EmitItem.crossref (toString (get_s_s 1 6))
            (toString (get_s_s 1 2))]) :=
  ⟨write_person_duplicate_handling.1 demoDownDb true
      (apply_henry_filter demoDownDb 3 1 1 "1").dnumber
      (apply_henry_filter demoDownDb 3 1 1 "1").map
      [1, 3, 4, 5, 5] "111",
   ⟨by decide,
    write_person_duplicate_handling.2.1 demoUpDupDb false 1
      (apply_filter demoUpDupDb 3 1) (by decide) 2⟩,
   ⟨by decide,
    (write_person_duplicate_handling.2.2 demoUpDupDb false 1
        (apply_filter demoUpDupDb 3 1) ⟨[]⟩ 6 2 (by decide)).trans
      (by simp)⟩⟩

/- ----------------------------------------------------------------- -/
/- customnarrator.py: sentence selection (claim C7)                  -/
/- ----------------------------------------------------------------- -/

/-- The born-string template tables of `customnarrator.py`, one entry
per output format (`FORMAT_NORMALTEXT = 0`, `FORMAT_MARKDOWN = 1`,
`FORMAT_LATEX = 2`), transcribed verbatim (including the source's
missing backslash in the modified-date LaTeX variant). -/
def born_full_date_with_place : List String :=
  ["Geboren %(birth_date)s in %(birth_place)s.",
   "Geboren: %(birth_date)s in [[%(birth_place)s]]",
   "\\geb\\,%(birth_date)s, \\place\x7b%(birth_place)s\x7d,"]

def born_modified_date_with_place : List String :=
  ["Geboren %(modified_date)s in %(birth_place)s.",
   "Geboren: %(modified_date)s in [[%(birth_place)s]]",
   "\\geb\\,%(modified_date)s, place\x7b%(birth_place)s\x7d,"]

def born_full_date_no_place : List String :=
  ["Geboren %(birth_date)s.",
   "Geboren: %(birth_date)s",
   "\\geb\\,%(birth_date)s,"]

def born_modified_date_no_place : List String :=
  ["Geboren %(modified_date)s.",
   "Geboren: %(modified_date)s",
   "\\geb\\,%(modified_date)s,"]

def born_partial_date_with_place : List String :=
  ["Geboren %(month_year)s in %(birth_place)s.",
   "Geboren: %(month_year)s in [[%(birth_place)s]]",
   "\\geb\\,%(month_year)s in %(birth_place)s,"]

def born_partial_date_no_place : List String :=
  ["Geboren %(month_year)s.",
   "Geboren: %(month_year)s",
   "\\geb\\,%(month_year)s,"]

def born_no_date_with_place : List String :=
  ["Geboren in %(birth_place)s.",
   "Geboren: in [[%(birth_place)s]]",
   "\\geb\\,\\place\x7b%(birth_place)s\x7d,"]

/-- The died-string template tables: per format, the pair
`[no-age variant, with-age variant]` (`_AGE_INDEX_NO_AGE = 0`,
`_AGE_INDEX = 1`). -/
def died_full_date_with_place : List (List String) :=
  [["Gestorben %(death_date)s in %(death_place)s.",
    "Gestorben %(death_date)s in %(death_place)s (%(age)s)."],
   ["Gestorben: %(death_date)s in [[%(death_place)s]]",
    "Gestorben: %(death_date)s in [[%(death_place)s]] (%(age)s)"],
   ["\\tod\\,%(death_date)s, \\place\x7b%(death_place)s\x7d,",
    "\\tod\\,%(death_date)s, \\place\x7b%(death_place)s\x7d (%(age)s),"]]

def died_modified_date_with_place : List (List String) :=
  [["Gestorben %(death_date)s in %(death_place)s.",
    "Gestorben %(death_date)s in %(death_place)s (%(age)s)."],
   ["Gestorben: %(death_date)s in [[%(death_place)s]]",
    "Gestorben: %(death_date)s in [[%(death_place)s]] (%(age)s)"],
   ["\\tod\\,%(death_date)s, \\place\x7b%(death_place)s\x7d,",
    "\\tod\\,%(death_date)s, \\place\x7b%(death_place)s\x7d (%(age)s),"]]

def died_full_date_no_place : List (List String) :=
  [["Gestorben %(death_date)s.", "Gestorben %(death_date)s (%(age)s)."],
   ["Gestorben: %(death_date)s", "Gestorben: %(death_date)s (%(age)s)"],
   ["\\tod\\,%(death_date)s,", "\\tod\\,%(death_date)s (%(age)s),"]]

def died_modified_date_no_place : List (List String) :=
  [["Gestorben %(death_date)s.", "Gestorben %(death_date)s (%(age)s)."],
   ["Gestorben: %(death_date)s", "Gestorben: %(death_date)s (%(age)s)"],
   ["\\tod\\,%(death_date)s,", "\\tod\\,%(death_date)s (%(age)s),"]]

def died_partial_date_with_place : List (List String) :=
  [["Gestorben %(month_year)s in %(death_place)s.",
    "Gestorben %(month_year)s in %(death_place)s (%(age)s)."],
   ["Gestorben: %(month_year)s in [[%(death_place)s]]",
    "Gestorben: %(month_year)s in [[%(death_place)s]] (%(age)s)"],
   ["\\tod\\,%(month_year)s, \\place\x7b%(death_place)s\x7d,",
    "\\tod\\,%(month_year)s, \\place\x7b%(death_place)s\x7d (%(age)s),"]]

def died_partial_date_no_place : List (List String) :=
  [["Gestorben %(month_year)s.", "Gestorben %(month_year)s (%(age)s)."],
   ["Gestorben: %(month_year)s", "Gestorben: %(month_year)s (%(age)s)"],
   ["\\tod\\,%(month_year)s,", "\\tod\\,%(month_year)s (%(age)s),"]]

def died_no_date_with_place : List (List String) :=
  [["Gestorben in %(death_place)s.",
    "Gestorben in %(death_place)s (%(age)s)."],
   ["Gestorben: in [[%(death_place)s]]",
    "Gestorben: in [[%(death_place)s]] (%(age)s)"],
   ["\\tod\\,\\place\x7b%(death_place)s\x7d,",
    "\\tod\\,\\place\x7b%(death_place)s\x7d (%(age)s),"]]

def died_no_date_no_place : List (List String) :=
  [["", "Gestorben (%(age)s)."],
   ["", "Gestorben: (%(age)s)"],
   ["", "\\tod\\,(%(age)s),"]]

/-- The narrator configuration the claims touch: the output format
number and the `use_fulldate` / `empty_date` / `empty_place`
constructor parameters (`use_call_name` is irrelevant to the born/died
templates, which contain no name keys). -/
structure NarratorCfg where
  use_fulldate : Bool
  empty_date : String
  empty_place : String
  format : Nat
deriving Repr

/-- The event facts `get_born_string` / `get_died_string` compute
before selecting a template: the date string (the locale rendering with
`use_fulldate`, otherwise the year, falsy when 0), the place display,
and the `get_day_valid` / modifier flags of the date object. -/
structure EventFacts where
  date : String
  place : String
  date_full : Bool
  date_mod : Bool
deriving Repr

/-- Default event for handles Python would never miss on a well-formed
database. -/
def emptyGEvent : GEvent := ⟨⟨"", 0, false, false, false⟩, none⟩

/-- The shared fact-extraction prologue of `get_born_string` and
`get_died_string`, applied to the respective event reference: defaults
`(empty_date, empty_place, False, False)` when the reference or the
event is absent (`if birth_event:`), otherwise the date rendering (or
the year when `use_fulldate` is off; year 0 is falsy, modelled as the
empty string), the place display when the event has a place handle,
and the two date flags. -/
def event_facts (db : GDb) (cfg : NarratorCfg) (refOpt : Option Nat) :
    EventFacts :=
  match refOpt with
  | none => ⟨cfg.empty_date, cfg.empty_place, false, false⟩
  | some evh =>
      match List.lookup evh db.events with
      | none => ⟨cfg.empty_date, cfg.empty_place, false, false⟩
      | some ev =>
          { date := if cfg.use_fulldate then ev.date.rendered
              else (if ev.date.year = 0 then ""
                else toString ev.date.year)
            place := match ev.place_handle with
              | some _ => (List.lookup evh db.event_place_str).getD ""
              | none => cfg.empty_place
            date_full := ev.date.day_valid
            date_mod := ev.date.modifier_ne_none }

def born_facts (db : GDb) (cfg : NarratorCfg) (p : GPerson) :
    EventFacts :=
  event_facts db cfg p.birth_ref

def died_facts (db : GDb) (cfg : NarratorCfg) (p : GPerson) :
    EventFacts :=
  event_facts db cfg p.death_ref

/-- `CustomNarrator.__get_age_at_death`: the pair `(age, age_index)`.
An age is reported (`_AGE_INDEX = 1`) exactly when both events have a
valid year and the host's date subtraction yields a truthy, valid span
(`db.date_span death birth = some repr`); otherwise `(0, 0)`. -/
def get_age_at_death (db : GDb) (p : GPerson) : String × Nat :=
  let birth_year_valid := match p.birth_ref with
    | some evh =>
        ((List.lookup evh db.events).getD emptyGEvent).date.year_valid
    | none => false
  let death_year_valid := match p.death_ref with
    | some evh =>
        ((List.lookup evh db.events).getD emptyGEvent).date.year_valid
    | none => false
  if birth_year_valid && death_year_valid then
    match p.death_ref, p.birth_ref with
    | some devh, some bevh =>
        match db.date_span
            ((List.lookup devh db.events).getD emptyGEvent).date
            ((List.lookup bevh db.events).getD emptyGEvent).date with
        | some s => (s, 1)
        | none => ("0", 0)
    | _, _ => ("0", 0)
  else ("0", 0)

/-- Python `%`-substitution restricted to the `%(key)s` patterns the
narrator templates use, scanning left to right. -/
def pySubstChars (vals : List (String × String)) :
    Nat → List Char → List Char
  | 0, l => l
  | _ + 1, [] => []
  | fuel + 1, '%' :: '(' :: rest =>
      let key := rest.takeWhile (fun c => c ≠ ')')
      let rem := rest.dropWhile (fun c => c ≠ ')')
      match rem with
      | ')' :: 's' :: rest2 =>
          ((List.lookup (String.mk key) vals).getD "").data
            ++ pySubstChars vals fuel rest2
      | _ => '%' :: '(' :: pySubstChars vals fuel rest
  | fuel + 1, c :: rest => c :: pySubstChars vals fuel rest

/-- `text % value_map`. -/
def pySubst (vals : List (String × String)) (text : String) : String :=
  ⟨pySubstChars vals text.data.length text.data⟩

/-- The `value_map` of `get_born_string`. -/
def bornValueMap (db : GDb) (cfg : NarratorCfg) (p : GPerson) :
    List (String × String) :=
  let f := born_facts db cfg p
  [("name", p.primary_name.first_name),
   ("male_name", p.primary_name.first_name),
   ("unknown_gender_name", p.primary_name.first_name),
   ("female_name", p.primary_name.first_name),
   ("birth_date", f.date),
   ("birth_place", f.place),
   ("month_year", f.date),
   ("modified_date", f.date)]

/-- The `value_map` of `get_died_string`. -/
def diedValueMap (db : GDb) (cfg : NarratorCfg) (p : GPerson)
    (include_age : Bool) : List (String × String) :=
  let f := died_facts db cfg p
  let age := (if include_age then get_age_at_death db p
    else ("0", 0)).1
  [("name", p.primary_name.first_name),
   ("unknown_gender_name", p.primary_name.first_name),
   ("male_name", p.primary_name.first_name),
   ("female_name", p.primary_name.first_name),
   ("death_date", f.date),
   ("modified_date", f.date),
   ("death_place", f.place),
   ("age", age),
   ("month_year", f.date)]

/-- `CustomNarrator.get_born_string`: compute the birth facts, select
the template by the cascade `if bdate: (modified / full / partial)
else: (place / nothing)`, and substitute the value map into a nonempty
template. -/
def get_born_string (db : GDb) (cfg : NarratorCfg) (p : GPerson) :
    String :=
  let f := born_facts db cfg p
  let text :=
    if f.date ≠ "" then
      if f.date_mod then
        if f.place ≠ "" then
          born_modified_date_with_place.getD cfg.format ""
        else born_modified_date_no_place.getD cfg.format ""
      else if f.date_full then
        if f.place ≠ "" then
          born_full_date_with_place.getD cfg.format ""
        else born_full_date_no_place.getD cfg.format ""
      else
        if f.place ≠ "" then
          born_partial_date_with_place.getD cfg.format ""
        else born_partial_date_no_place.getD cfg.format ""
    else
      if f.place ≠ "" then born_no_date_with_place.getD cfg.format ""
      else ""
  if text ≠ "" then pySubst (bornValueMap db cfg p) text else text

/-- `CustomNarrator.get_died_string`: compute the death facts and the
age pair, select the template by the cascade
`ddate and ddate_mod / ddate and ddate_full / ddate / dplace / neither`
indexed by the format and the age index, and substitute the value map
into a nonempty template. -/
def get_died_string (db : GDb) (cfg : NarratorCfg) (p : GPerson)
    (include_age : Bool) : String :=
  let f := died_facts db cfg p
  let age_index := (if include_age then get_age_at_death db p
    else ("0", 0)).2
  let text :=
    if f.date ≠ "" ∧ f.date_mod then
      if f.place ≠ "" then
        (died_modified_date_with_place.getD cfg.format []).getD
          age_index ""
      else
        (died_modified_date_no_place.getD cfg.format []).getD
          age_index ""
    else if f.date ≠ "" ∧ f.date_full then
      if f.place ≠ "" then
        (died_full_date_with_place.getD cfg.format []).getD age_index ""
      else
        (died_full_date_no_place.getD cfg.format []).getD age_index ""
    else if f.date ≠ "" then
      if f.place ≠ "" then
        (died_partial_date_with_place.getD cfg.format []).getD
          age_index ""
      else
        (died_partial_date_no_place.getD cfg.format []).getD
          age_index ""
    else if f.place ≠ "" then
      (died_no_date_with_place.getD cfg.format []).getD age_index ""
    else
      (died_no_date_no_place.getD cfg.format []).getD age_index ""
  if text ≠ "" then pySubst (diedValueMap db cfg p include_age) text
  else text

/-- The born-template selection as a function of the claim's tuple
(date presence, date modifier, day validity, place presence) and the
output format. -/
def bornTemplate (format : Nat)
    (datePresent dateMod dateFull placePresent : Bool) : String :=
  if datePresent then
    if dateMod then
      if placePresent then born_modified_date_with_place.getD format ""
      else born_modified_date_no_place.getD format ""
    else if dateFull then
      if placePresent then born_full_date_with_place.getD format ""
      else born_full_date_no_place.getD format ""
    else
      if placePresent then born_partial_date_with_place.getD format ""
      else born_partial_date_no_place.getD format ""
  else
    if placePresent then born_no_date_with_place.getD format ""
    else ""

/-- The died-template selection as a function of the claim's tuple and
the age index. -/
def diedTemplate (format : Nat)
    (datePresent dateMod dateFull placePresent : Bool)
    (ageIndex : Nat) : String :=
  if datePresent && dateMod then
    if placePresent then
      (died_modified_date_with_place.getD format []).getD ageIndex ""
    else (died_modified_date_no_place.getD format []).getD ageIndex ""
  else if datePresent && dateFull then
    if placePresent then
      (died_full_date_with_place.getD format []).getD ageIndex ""
    else (died_full_date_no_place.getD format []).getD ageIndex ""
  else if datePresent then
    if placePresent then
      (died_partial_date_with_place.getD format []).getD ageIndex ""
    else (died_partial_date_no_place.getD format []).getD ageIndex ""
  else if placePresent then
    (died_no_date_with_place.getD format []).getD ageIndex ""
  else (died_no_date_no_place.getD format []).getD ageIndex ""

theorem died_no_date_no_place_noage (fmt : Nat) :
    (died_no_date_no_place[fmt]?.getD [])[0]?.getD "" = "" := by
  match fmt with
  | 0 => rfl
  | 1 => rfl
  | 2 => rfl
  | n + 3 => rfl

/-- C7: the narrator's sentence selection is a function of the tuple
(event/date presence, date modifier, day validity, place presence,
output format): `get_born_string` and `get_died_string` equal the
substitution of their value maps into the unique template
`bornTemplate` / `diedTemplate` determined by that tuple (and, for
death, the age index); `get_born_string` returns `""` when the subject
has neither a birth date nor a birth place, and `get_died_string`
returns `""` when there is no death date, no death place, and no age
to report. -/
theorem narrator_selection_characterized :
    (∀ (db : GDb) (cfg : NarratorCfg) (p : GPerson),
      get_born_string db cfg p
        = (let f := born_facts db cfg p
           let t := bornTemplate cfg.format (decide (f.date ≠ ""))
             f.date_mod f.date_full (decide (f.place ≠ ""))
           if t ≠ "" then pySubst (bornValueMap db cfg p) t else t)) ∧
    (∀ (db : GDb) (cfg : NarratorCfg) (p : GPerson)
        (include_age : Bool),
      get_died_string db cfg p include_age
        = (let f := died_facts db cfg p
           let ai := (if include_age then get_age_at_death db p
             else ("0", 0)).2
           let t := diedTemplate cfg.format (decide (f.date ≠ ""))
             f.date_mod f.date_full (decide (f.place ≠ "")) ai
           if t ≠ "" then
             pySubst (diedValueMap db cfg p include_age) t
           else t)) ∧
    (∀ (db : GDb) (cfg : NarratorCfg) (p : GPerson),
      (born_facts db cfg p).date = "" →
      (born_facts db cfg p).place = "" →
      get_born_string db cfg p = "") ∧
    (∀ (db : GDb) (cfg : NarratorCfg) (p : GPerson)
        (include_age : Bool),
      (died_facts db cfg p).date = "" →
      (died_facts db cfg p).place = "" →
      (include_age = false ∨ (get_age_at_death db p).2 = 0) →
      get_died_string db cfg p include_age = "") := by
  refine ⟨?_, ?_, ?_, ?_⟩
  · intro db cfg p
    simp only [get_born_string, bornTemplate]
    by_cases hd : (born_facts db cfg p).date = "" <;>
      cases hm : (born_facts db cfg p).date_mod <;>
        cases hf2 : (born_facts db cfg p).date_full <;>
          by_cases hp : (born_facts db cfg p).place = "" <;>
            simp [hd, hm, hf2, hp]
  · intro db cfg p ia
    simp only [get_died_string, diedTemplate]
    by_cases hd : (died_facts db cfg p).date = "" <;>
      cases hm : (died_facts db cfg p).date_mod <;>
        cases hf2 : (died_facts db cfg p).date_full <;>
          by_cases hp : (died_facts db cfg p).place = "" <;>
            simp [hd, hm, hf2, hp]
  · intro db cfg p hd hp
    simp [get_born_string, hd, hp]
  · intro db cfg p ia hd hp hage
    have hai : (if ia then get_age_at_death db p else ("0", 0)).2
        = 0 := by
      cases ia with
      | false => rfl
      | true =>
          rcases hage with hc | hc
          · cases hc
          · simpa using hc
    simp only [get_died_string, hd, hp]
    rw [hai]
    simp [died_no_date_no_place_noage]

def demoNarrCfg : NarratorCfg := ⟨true, "", "", 2⟩

theorem narrator_selection_characterized_witness :
    get_born_string demoDownDb demoNarrCfg emptyPerson = "" ∧
    get_died_string demoDownDb demoNarrCfg emptyPerson false = "" :=
  ⟨narrator_selection_characterized.2.2.1 demoDownDb demoNarrCfg
     emptyPerson rfl rfl,
   narrator_selection_characterized.2.2.2 demoDownDb demoNarrCfg
     emptyPerson false rfl rfl (Or.inl rfl)⟩
